import Mathlib

/-!
# Verification of the Simrad raw-file framing engine

A shallow embedding of `echolab2/instruments/util/simrad_raw_file.py`
(`RawSimradFile`): the byte cursor, frame codec, resynchronizer and datagram
reader, together with theorems checking the natural-language specification.

The underlying file is modelled as an immutable list of bytes (`List Nat`,
each entry a byte value) plus a cursor position; the Python object's mutable
fields `_current_dgram_offset` and `_return_raw` are carried in the same
state record.  Python exceptions are modelled by an explicit result type that
carries the state at the moment the exception propagates, since the claims
talk about the cursor position after failures.
-/

namespace Simrad

/-- The observable state of a `RawSimradFile`: the file contents, the byte
cursor (`BufferedReader.tell`), the logical datagram counter
(`_current_dgram_offset`) and the `_return_raw` flag. -/
structure FileState where
  data : List Nat
  pos : Nat
  dgramIndex : Int
  return_raw : Bool
deriving Repr, DecidableEq

/-- The Python exceptions that the reader can raise.  `eof` is `SimradEOF`,
`readError` is `DatagramReadError`, `sizeError` is `DatagramSizeError`
(as intended by the bare `raise DatagramSizeError` statements in
`skip_back`), `ioError` is an `IOError`/`OSError` from a bad byte seek,
`structError` is a `struct.error` from `struct.unpack` on a short buffer,
and `fuelOut` is the out-of-fuel sentinel of the embedding (the Python code
recurses unboundedly on retry; the model makes the recursion depth explicit). -/
inductive RFError where
  | eof
  | readError
  | sizeError
  | ioError
  | structError
  | fuelOut
deriving Repr, DecidableEq

/-- Result of an operation: a value plus the state afterwards, or an
exception plus the state at the moment it propagates. -/
inductive RResult (α : Type) where
  | ok : α → FileState → RResult α
  | err : RFError → FileState → RResult α
deriving Repr, DecidableEq

/-- The state carried by a result, whether success or failure. -/
def RResult.finalState {α : Type} : RResult α → FileState
  | .ok _ s => s
  | .err _ s => s

/-- `_read_bytes(k)` / `BufferedReader.read(k)`: returns up to `k` bytes
from the cursor and advances the cursor by the number of bytes returned. -/
def readBytes (k : Nat) (s : FileState) : List Nat × FileState :=
  let b := (s.data.drop s.pos).take k
  (b, { s with pos := s.pos + b.length })

/-- `_tell_bytes()`. -/
def tellBytes (s : FileState) : Nat := s.pos

/-- `tell()`: the logical datagram index. -/
def tell (s : FileState) : Int := s.dgramIndex

/-- `_seek_bytes(off, SEEK_SET)`: absolute byte seek; a negative target
raises `OSError`. -/
def seekSet (off : Int) (s : FileState) : RResult Unit :=
  if off < 0 then .err .ioError s else .ok () { s with pos := off.toNat }

/-- `_seek_bytes(off, SEEK_CUR)`: relative byte seek; a negative resulting
position raises `OSError`. -/
def seekCur (off : Int) (s : FileState) : RResult Unit :=
  if (s.pos : Int) + off < 0 then .err .ioError s
  else .ok () { s with pos := ((s.pos : Int) + off).toNat }

/-- `at_eof()`: seeks to the end, compares with the saved position and seeks
back; observably, the position equals the file length. -/
def at_eof (s : FileState) : Bool := s.pos == s.data.length

/-- Little-endian unsigned 32-bit value of a 4-byte buffer
(`struct.unpack` with a 4-byte unsigned format). -/
def leUInt32 (b : List Nat) : Nat :=
  match b with
  | [b0, b1, b2, b3] => b0 + b1 * 256 + b2 * 65536 + b3 * 16777216
  | _ => 0

/-- Reinterpret an unsigned 32-bit value as signed (`struct.unpack` format
`=l`, little-endian signed 32-bit). -/
def toInt32 (n : Nat) : Int :=
  if n < 2147483648 then (n : Int) else (n : Int) - 4294967296

/-- Native-endian signed 16-bit reinterpretation (`struct.unpack` format
`h` on a little-endian host). -/
def toInt16 (n : Nat) : Int :=
  if n < 32768 then (n : Int) else (n : Int) - 65536

/-- Little-endian unsigned 16-bit value of a 2-byte buffer. -/
def leUInt16 (b : List Nat) : Nat :=
  match b with
  | [b0, b1] => b0 + b1 * 256
  | _ => 0

/-- Little-endian 4-byte encoding of an unsigned 32-bit value; used to build
concrete and symbolic streams fed to the reader. -/
def le4 (n : Nat) : List Nat :=
  [n % 256, n / 256 % 256, n / 65536 % 256, n / 16777216 % 256]

/-- `_read_dgram_size()`: read 4 bytes as a little-endian signed 32-bit
integer; on a short read, seek back over the bytes read and raise
`DatagramReadError`. -/
def read_dgram_size (s : FileState) : RResult Int :=
  let r := readBytes 4 s
  if r.1.length ≠ 4 then
    .err .readError { r.2 with pos := r.2.pos - r.1.length }
  else
    .ok (toInt32 (leUInt32 r.1)) r.2

/-- `_read_timestamp()`: read 8 bytes as two little-endian unsigned 32-bit
values (`=2L`), also returning the raw bytes; on a short read raise
`SimradEOF` at end of file, else seek back and raise `DatagramReadError`. -/
def read_timestamp (s : FileState) : RResult (Nat × Nat × List Nat) :=
  let r := readBytes 8 s
  if r.1.length ≠ 8 then
    if at_eof r.2 then .err .eof r.2
    else .err .readError { r.2 with pos := r.2.pos - r.1.length }
  else
    .ok (leUInt32 (r.1.take 4), leUInt32 ((r.1.drop 4).take 4), r.1) r.2

/-- The dict returned by `_read_dgram_header()`.  The `dtype` field is the
4 type-tag bytes (the iso-8859-1 decode is a byte-for-byte bijection, so the
string is modelled by its bytes); `raw_bytes` is type tag ++ timestamp. -/
structure DgramHeader where
  size : Int
  dtype : List Nat
  low_date : Nat
  high_date : Nat
  raw_bytes : List Nat
  bytes_read : Int
deriving Repr, DecidableEq

/-- `_read_dgram_header()`: leading size (converting any failure into
`SimradEOF` when at end of file), 4 type bytes, 8 timestamp bytes; computes
`bytes_read = dgram_size + 20`. -/
def read_dgram_header (s : FileState) : RResult DgramHeader :=
  match read_dgram_size s with
  | .err e s1 => if at_eof s1 then .err .eof s1 else .err e s1
  | .ok dgram_size s1 =>
    let r := readBytes 4 s1
    if r.1.length ≠ 4 then
      if at_eof r.2 then .err .eof r.2
      else .err .readError { r.2 with pos := r.2.pos - r.1.length }
    else
      match read_timestamp r.2 with
      | .err e s3 => .err e s3
      | .ok tsv s3 =>
        .ok { size := dgram_size, dtype := r.1, low_date := tsv.1,
              high_date := tsv.2.1, raw_bytes := r.1 ++ tsv.2.2,
              bytes_read := dgram_size + 20 } s3

/-- The `search_buf_bytes` constant of `_find_next_datagram`: 10 MiB. -/
def SEARCH_BUF_BYTES : Nat := 10485760

/-- The byte patterns of the regex `b'RAW|NME|TAG|BOT|DEP|XML|MRU'` used by
`_find_next_datagram`. -/
def tagSet : List (List Nat) :=
  [[82, 65, 87], [78, 77, 69], [84, 65, 71],
   [66, 79, 84], [68, 69, 80], [88, 77, 76], [77, 82, 85]]

/-- Position of the leftmost match of the tag regex in a buffer
(`re.finditer` + first match), if any: a match needs three actual bytes
equal to one of the seven patterns. -/
def findFirstTag : List Nat → Option Nat
  | x :: y :: z :: rest =>
    if tagSet.contains [x, y, z] then some 0
    else (findFirstTag (y :: z :: rest)).map (· + 1)
  | _ => none

/-- The chunked scanning loop of `_find_next_datagram`.  `cfp` is the
`current_file_pos` bookkeeping variable of the source (which the source
advances by the full chunk size even when the chunk was short).  On a match
at chunk offset `j` the cursor is repositioned at absolute offset
`cfp + j - 4`; a zero-byte chunk raises `SimradEOF`. -/
def find_next_loop : Nat → Int → FileState → RResult Unit
  | 0, _, s => .err .fuelOut s
  | fuel + 1, cfp, s =>
    let r := readBytes SEARCH_BUF_BYTES s
    if r.1.length = 0 then .err .eof r.2
    else
      match findFirstTag r.1 with
      | some j => seekSet (cfp + (j : Int) - 4) r.2
      | none => find_next_loop fuel (cfp + (SEARCH_BUF_BYTES : Int)) r.2

/-- `_find_next_datagram()`. -/
def find_next_datagram (fuel : Nat) (s : FileState) : RResult Unit :=
  find_next_loop fuel (tellBytes s : Int) s

/-- Microseconds past the 1601-01-01T00:00:00 UTC epoch, as computed by
`get_header`: `((high_date << 32) + low_date) // 10`. -/
def us_past_nt_epoch (low high : Nat) : Nat :=
  ((high <<< 32) + low) / 10

/-- Modelled from the spec: the user-facing Datagram Record produced by the
payload decoders of `simrad_parsers`, which are imported by
`simrad_raw_file.py` but are not part of the sources.  Per the spec the
decoders expose `decode(raw_frame_bytes, total_frame_length) -> Record`
where `raw_frame_bytes` begins with the 12-byte header; the record carries
`type`, `timestamp` (UTC, modelled as microseconds past the 1601 epoch),
`size` (payload bytes) and `bytes_read` (as passed by the framing engine),
and an unrecognized tag degrades to a fallback decoder that preserves the
raw payload. -/
structure Record where
  rtype : List Nat
  low_date : Nat
  high_date : Nat
  timestamp_us : Nat
  size : Nat
  bytes_read : Int
  payload : List Nat
deriving Repr, DecidableEq

/-- Modelled from the spec: `_convert_raw_datagram(raw, bytes_read)` — the
dispatch through `DGRAM_TYPE_KEY` to a `simrad_parsers` decoder (code not in
the sources).  The raw frame bytes begin with the 4 type bytes and the
8 timestamp bytes; the remainder is the payload, whose length is the
record's `size` (spec: "`size` (payload bytes)"). -/
def convert_raw_datagram (raw : List Nat) (bytes_read : Int) : Record :=
  { rtype := raw.take 4
    low_date := leUInt32 ((raw.drop 4).take 4)
    high_date := leUInt32 ((raw.drop 8).take 4)
    timestamp_us := us_past_nt_epoch (leUInt32 ((raw.drop 4).take 4))
      (leUInt32 ((raw.drop 8).take 4))
    size := raw.length - 12
    bytes_read := bytes_read
    payload := raw.drop 12 }

/-- What `_read_next_dgram` returns: the raw frame bytes in `return_raw`
mode, else the decoded record. -/
inductive Dgram where
  | raw : List Nat → Dgram
  | nice : Record → Dgram
deriving Repr, DecidableEq

/-- `_read_next_dgram(header=None)`.  The rollback point `old_file_pos` is
the entry position (or entry minus 16 when a header is passed in);
`size < 16`, a short payload, and a trailing-size mismatch each trigger
`_find_next_datagram` followed by a retry of the whole read; a short read of
the trailing size field seeks back to the rollback point and re-raises; on
success the logical index is incremented and the frame is returned raw or
decoded.  `fuel` bounds the retry recursion depth. -/
def read_next_dgram : Nat → Option DgramHeader → FileState → RResult Dgram
  | 0, _, s => .err .fuelOut s
  | fuel + 1, header?, s =>
    let hdrRes : RResult (DgramHeader × Int) :=
      match header? with
      | none =>
        match read_dgram_header s with
        | .err e s1 => .err e s1
        | .ok h s1 => .ok (h, (s.pos : Int)) s1
      | some h => .ok (h, (s.pos : Int) - 16) s
    match hdrRes with
    | .err e s1 => .err e s1
    | .ok hp s1 =>
      if hp.1.size < 16 then
        match find_next_datagram fuel s1 with
        | .err e s2 => .err e s2
        | .ok _ s2 => read_next_dgram fuel none s2
      else
        let r := readBytes (hp.1.size - 12).toNat s1
        let raw_dgram := hp.1.raw_bytes ++ r.1
        if (raw_dgram.length : Int) < hp.1.size then
          match find_next_datagram fuel r.2 with
          | .err e s3 => .err e s3
          | .ok _ s3 => read_next_dgram fuel none s3
        else
          match read_dgram_size r.2 with
          | .err e s3 =>
            match seekSet hp.2 s3 with
            | .err e2 s4 => .err e2 s4
            | .ok _ s4 => .err e s4
          | .ok dgram_size_check s3 =>
            if hp.1.size ≠ dgram_size_check then
              match find_next_datagram fuel s3 with
              | .err e s4 => .err e s4
              | .ok _ s4 => read_next_dgram fuel none s4
            else
              if s3.return_raw then
                .ok (.raw raw_dgram)
                  { s3 with dgramIndex := s3.dgramIndex + 1 }
              else
                .ok (.nice (convert_raw_datagram raw_dgram
                    ((raw_dgram.length : Int) + 20)))
                  { s3 with dgramIndex := s3.dgramIndex + 1 }

/-- `skip(header=None)`: read (or accept) the header; if `size < 16`
resynchronize (without retrying), else seek past the payload and check the
trailing size, resynchronizing (without retrying) on mismatch; in every
non-raising path the logical index is incremented exactly once. -/
def skip (fuel : Nat) (header? : Option DgramHeader) (s : FileState) :
    RResult Unit :=
  let hdrRes : RResult DgramHeader :=
    match header? with
    | none => read_dgram_header s
    | some h => .ok h s
  match hdrRes with
  | .err e s1 => .err e s1
  | .ok header s1 =>
    if header.size < 16 then
      match find_next_datagram fuel s1 with
      | .err e s2 => .err e s2
      | .ok _ s2 => .ok () { s2 with dgramIndex := s2.dgramIndex + 1 }
    else
      match seekCur (header.size - 12) s1 with
      | .err e s2 => .err e s2
      | .ok _ s2 =>
        match read_dgram_size s2 with
        | .err e s3 => .err e s3
        | .ok check s3 =>
          if header.size ≠ check then
            match find_next_datagram fuel s3 with
            | .err e s4 => .err e s4
            | .ok _ s4 => .ok () { s4 with dgramIndex := s4.dgramIndex + 1 }
          else
            .ok () { s3 with dgramIndex := s3.dgramIndex + 1 }

/-- `skip_back()`: read the 4 bytes before the cursor as a trailing size,
seek to the candidate frame start `current - 8 - trailing`, read the leading
size there and require it to match; on mismatch restore the entry position
and raise; on success leave the cursor at the candidate start and decrement
the logical index.  (The source's bare `raise DatagramSizeError` statements
are modelled as raising that error.) -/
def skip_back (s : FileState) : RResult Unit :=
  let old_file_pos : Int := (s.pos : Int)
  match seekCur (-4) s with
  | .err e s1 => .err e s1
  | .ok _ s1 =>
    match read_dgram_size s1 with
    | .err e s2 => .err e s2
    | .ok dgram_size_check s2 =>
      match seekCur (-(8 + dgram_size_check)) s2 with
      | .err _ s3 => .err .sizeError s3
      | .ok _ s3 =>
        match read_dgram_size s3 with
        | .err e s4 => .err e s4
        | .ok dgram_size s4 =>
          if dgram_size_check ≠ dgram_size then
            match seekSet old_file_pos s4 with
            | .err e s5 => .err e s5
            | .ok _ s5 => .err .sizeError s5
          else
            match seekCur (-4) s4 with
            | .err e s5 => .err e s5
            | .ok _ s5 => .ok () { s5 with dgramIndex := s5.dgramIndex - 1 }

/-- The type-tag byte constants `peek` compares against. -/
def RAW0 : List Nat := [82, 65, 87, 48]

/-- See `RAW0`. -/
def RAW3 : List Nat := [82, 65, 87, 51]

/-- See `RAW0`. -/
def RAW4 : List Nat := [82, 65, 87, 52]

/-- `bytes.strip(b'\x00')`: null bytes removed from both ends. -/
def stripNull (b : List Nat) : List Nat :=
  ((b.dropWhile (· == 0)).reverse.dropWhile (· == 0)).reverse

/-- The header dict as returned by `peek`, with the lookahead fields that
`peek` adds for ping datagrams (`channel` for `RAW0`, `channel_id` for
`RAW3`/`RAW4`). -/
structure PeekResult where
  hdr : DgramHeader
  channel : Option Int
  channel_id : Option (List Nat)
deriving Repr, DecidableEq

/-- `peek(rewind)`: read the header; for `RAW0` also read a 2-byte channel
index, for `RAW3`/`RAW4` a 128-byte channel identifier; with `rewind` seek
back to the frame start, without it seek back to the start of the payload.
Never touches the logical index. -/
def peek (rewind : Bool) (s : FileState) : RResult PeekResult :=
  match read_dgram_header s with
  | .err e s1 => .err e s1
  | .ok h s1 =>
    if h.dtype = RAW0 then
      let r := readBytes 2 s1
      if r.1.length ≠ 2 then .err .structError r.2
      else
        match seekCur (if rewind then -18 else -2) r.2 with
        | .err e s3 => .err e s3
        | .ok _ s3 =>
          .ok { hdr := h, channel := some (toInt16 (leUInt16 r.1)),
                channel_id := none } s3
    else if h.dtype = RAW3 ∨ h.dtype = RAW4 then
      let r := readBytes 128 s1
      if r.1.length ≠ 128 then .err .structError r.2
      else
        match seekCur (if rewind then -144 else -128) r.2 with
        | .err e s3 => .err e s3
        | .ok _ s3 =>
          .ok { hdr := h, channel := none,
                channel_id := some (stripNull r.1) } s3
    else
      if rewind then
        match seekCur (-16) s1 with
        | .err e s3 => .err e s3
        | .ok _ s3 => .ok { hdr := h, channel := none, channel_id := none } s3
      else
        .ok { hdr := h, channel := none, channel_id := none } s1

/-- The dict returned by `get_header`: the `peek(rewind=False)` result plus
the derived `timestamp` (as microseconds past the 1601 epoch) and
`bytes_read = size + 20`. -/
structure HeaderInfo where
  hdr : DgramHeader
  channel : Option Int
  channel_id : Option (List Nat)
  timestamp_us : Nat
  bytes_read : Int
deriving Repr, DecidableEq

/-- `get_header()`. -/
def get_header (s : FileState) : RResult HeaderInfo :=
  match peek false s with
  | .err e s1 => .err e s1
  | .ok p s1 =>
    .ok { hdr := p.hdr, channel := p.channel, channel_id := p.channel_id,
          timestamp_us := us_past_nt_epoch p.hdr.low_date p.hdr.high_date,
          bytes_read := p.hdr.size + 20 } s1

/-- `read(1)` — `_read_next_dgram` with any exception converted to
`SimradEOF` when the failure left the cursor at end of file. -/
def read1 (fuel : Nat) (header? : Option DgramHeader) (s : FileState) :
    RResult Dgram :=
  match read_next_dgram fuel header? s with
  | .ok d s1 => .ok d s1
  | .err e s1 => if at_eof s1 then .err .eof s1 else .err e s1

/-- The `k > 1` loop of `read`: call `_read_next_dgram` up to `k` times,
appending results, and stop at the first exception (swallowed). -/
def read_many (fuel : Nat) : Nat → FileState → List Dgram × FileState
  | 0, s => ([], s)
  | k + 1, s =>
    match read_next_dgram fuel none s with
    | .err _ s1 => ([], s1)
    | .ok d s1 =>
      let r := read_many fuel k s1
      (d :: r.1, r.2)

/-- The loop of `iter_dgrams`/`readall`: repeated `read(1)` until the first
exception, collecting the results. -/
def iter_collect (fuel : Nat) : Nat → FileState → List Dgram × FileState
  | 0, s => ([], s)
  | n + 1, s =>
    match read1 fuel none s with
    | .err _ s1 => ([], s1)
    | .ok d s1 =>
      let r := iter_collect fuel n s1
      (d :: r.1, r.2)

/-- `readall()`: `seek(0, SEEK_SET)` in datagram coordinates (byte 0, index
0) then iterate to the end. -/
def readall (fuel : Nat) (s : FileState) : List Dgram × FileState :=
  iter_collect fuel fuel { s with pos := 0, dgramIndex := 0 }

/-- The possible values of `read(k)`: one datagram for `k = 1`, a list for
`k > 1` or `k < 0`, and Python's implicit `None` for `k = 0`. -/
inductive ReadVal where
  | one : Dgram → ReadVal
  | many : List Dgram → ReadVal
  | noneVal : ReadVal
deriving Repr, DecidableEq

/-- `read(k, header=None)`. -/
def read (fuel : Nat) (k : Int) (header? : Option DgramHeader)
    (s : FileState) : RResult ReadVal :=
  if k = 1 then
    match read1 fuel header? s with
    | .ok d s1 => .ok (.one d) s1
    | .err e s1 => .err e s1
  else if k > 0 then
    let r := read_many fuel k.toNat s
    .ok (.many r.1) r.2
  else if k < 0 then
    let r := readall fuel s
    .ok (.many r.1) r.2
  else
    .ok ReadVal.noneVal s

/-- A fresh reader over the given bytes (`return_raw=False` default). -/
def initState (d : List Nat) : FileState :=
  { data := d, pos := 0, dgramIndex := 0, return_raw := false }

/-- A complete well-formed frame: leading size, 4 tag bytes, 8 timestamp
bytes, payload, trailing size. -/
def mkFrame (n : Nat) (tag ts payload : List Nat) : List Nat :=
  le4 n ++ tag ++ ts ++ payload ++ le4 n

/-! ## Concrete streams used by the claim witnesses and counterexamples -/

/-- The `NME0` type tag bytes. -/
def nme0bytes : List Nat := [78, 77, 69, 48]

/-- An all-zero 8-byte timestamp. -/
def zeros8 : List Nat := [0, 0, 0, 0, 0, 0, 0, 0]

/-- A well-formed 24-byte `NME0` frame with a 4-byte payload. -/
def sampleFrame : List Nat := mkFrame 16 nme0bytes zeros8 [5, 6, 7, 8]

/-- The stream of the C3 counterexample: one well-formed frame with
declared size 16 and a 4-byte payload. -/
def c3data : List Nat := mkFrame 16 nme0bytes zeros8 [1, 2, 3, 4]

/-- The record the reader returns for `c3data`. -/
def c3rec : Record :=
  { rtype := nme0bytes, low_date := 0, high_date := 0, timestamp_us := 0,
    size := 4, bytes_read := 36, payload := [1, 2, 3, 4] }

/-- The stream of the C4 counterexample: a 16-byte invalid header (declared
size 0) followed by the well-formed 24-byte frame `sampleFrame`. -/
def c4data : List Nat := le4 0 ++ [0, 0, 0, 0] ++ zeros8 ++ sampleFrame

/-- The stream of the C5 witness: a full header and payload but only 2
trailing bytes. -/
def c5data : List Nat := le4 16 ++ nme0bytes ++ zeros8 ++ [1, 2, 3, 4] ++ [9, 9]

/-- The streams of the C6 witness: `sampleFrame` (a matching reverse step)
and a stream whose leading and trailing sizes disagree. -/
def c6bad : List Nat := le4 17 ++ nme0bytes ++ zeros8 ++ [5, 6, 7, 8, 9] ++ le4 16

/-- The `peek` result for `sampleFrame`. -/
def c7pr : PeekResult :=
  { hdr := { size := 16, dtype := nme0bytes, low_date := 0, high_date := 0,
             raw_bytes := nme0bytes ++ zeros8, bytes_read := 36 },
    channel := none, channel_id := none }

/-- The stream of the C8 counterexample: a `RAW0` frame whose payload
starts with the 2-byte channel index `7`. -/
def raw0frame : List Nat := mkFrame 16 RAW0 zeros8 [7, 0, 1, 2]

/-- The `peek` result for `raw0frame`, channel lookahead included. -/
def c8pr : PeekResult :=
  { hdr := { size := 16, dtype := RAW0, low_date := 0, high_date := 0,
             raw_bytes := RAW0 ++ zeros8, bytes_read := 36 },
    channel := some 7, channel_id := none }

/-- The stream of the C4 witness's trailing-mismatch conjunct: a frame with
trailing size 99 (declared 16) followed by a well-formed recognizable
frame. -/
def c4bad : List Nat :=
  le4 16 ++ nme0bytes ++ zeros8 ++ [1, 2, 3, 4] ++ le4 99 ++ sampleFrame

/-- A 128-byte payload, exactly the channel-identifier lookahead a `RAW3`
frame is peeked with. -/
def raw3payload : List Nat := List.replicate 128 7

/-- A well-formed `RAW3` frame whose payload is exactly the 128-byte
channel identifier. -/
def raw3frame : List Nat := mkFrame 140 RAW3 zeros8 raw3payload

/-- A sequence of forward operations, as performed by a caller issuing
`read_next`/`skip` calls one after another; `none` when a call raises. -/
inductive FwdOp where
  | rnext
  | rskip
deriving Repr, DecidableEq

/-- Run the calls left to right, stopping at the first exception. -/
def runOps (fuel : Nat) : List FwdOp → FileState → Option FileState
  | [], s => some s
  | FwdOp.rnext :: ops, s =>
    match read_next_dgram fuel none s with
    | .ok _ s1 => runOps fuel ops s1
    | .err _ _ => none
  | FwdOp.rskip :: ops, s =>
    match skip fuel none s with
    | .ok _ s1 => runOps fuel ops s1
    | .err _ _ => none

/-- Agreement on every field except the byte cursor. -/
def sameFile (s t : FileState) : Prop :=
  t.data = s.data ∧ t.dgramIndex = s.dgramIndex ∧ t.return_raw = s.return_raw

/-! ## Basic facts about the byte codec -/

lemma le4_length (n : Nat) : (le4 n).length = 4 := rfl

lemma leUInt32_le4 {n : Nat} (h : n < 4294967296) : leUInt32 (le4 n) = n := by
  simp only [le4, leUInt32]
  omega

lemma toInt32_coe {n : Nat} (h : n < 2147483648) : toInt32 n = (n : Int) := by
  simp [toInt32, h]

lemma drop_add {data b rest : List Nat} {p k : Nat}
    (hS : data.drop p = b ++ rest) (hb : b.length = k) :
    data.drop (p + k) = rest := by
  rw [← List.drop_drop k p data, hS, List.drop_left' hb]

/-! ## Evaluation lemmas: running the reader over a stream with known
shape.  Each lemma symbolically executes one source operation on a state
whose bytes from the cursor onward are given. -/

lemma readBytes_eval {s : FileState} {b rest : List Nat} {k : Nat}
    (hS : s.data.drop s.pos = b ++ rest) (hb : b.length = k) :
    readBytes k s = (b, { s with pos := s.pos + k }) := by
  simp [readBytes, hS, List.take_left' hb, hb]

lemma read_dgram_size_eval {s : FileState} {n : Nat} {rest : List Nat}
    (hS : s.data.drop s.pos = le4 n ++ rest) (hn : n < 2147483648) :
    read_dgram_size s = .ok (n : Int) { s with pos := s.pos + 4 } := by
  have h1 := readBytes_eval hS (le4_length n)
  have h2 : leUInt32 (le4 n) = n := leUInt32_le4 (by omega)
  simp [read_dgram_size, h1, h2, toInt32_coe hn, le4_length]

lemma read_timestamp_eval {s : FileState} {ts rest : List Nat}
    (hS : s.data.drop s.pos = ts ++ rest) (hts : ts.length = 8) :
    read_timestamp s
      = .ok (leUInt32 (ts.take 4), leUInt32 ((ts.drop 4).take 4), ts)
          { s with pos := s.pos + 8 } := by
  have h1 := readBytes_eval hS hts
  simp [read_timestamp, h1, hts]

lemma read_dgram_header_eval {s : FileState} {n : Nat} {tag ts rest : List Nat}
    (hS : s.data.drop s.pos = le4 n ++ (tag ++ (ts ++ rest)))
    (htag : tag.length = 4) (hts : ts.length = 8) (hn : n < 2147483648) :
    read_dgram_header s
      = .ok { size := (n : Int), dtype := tag,
              low_date := leUInt32 (ts.take 4),
              high_date := leUInt32 ((ts.drop 4).take 4),
              raw_bytes := tag ++ ts, bytes_read := (n : Int) + 20 }
          { s with pos := s.pos + 16 } := by
  have e1 := read_dgram_size_eval hS hn
  have d1 : s.data.drop (s.pos + 4) = tag ++ (ts ++ rest) :=
    drop_add hS (le4_length n)
  have e2 : readBytes 4 { s with pos := s.pos + 4 }
      = (tag, { s with pos := s.pos + 4 + 4 }) := by
    exact readBytes_eval (by simpa using d1) htag
  have d2 : s.data.drop (s.pos + 4 + 4) = ts ++ rest := by
    have := drop_add (p := s.pos + 4) d1 htag
    simpa using this
  have e3 : read_timestamp { s with pos := s.pos + 4 + 4 }
      = .ok (leUInt32 (ts.take 4), leUInt32 ((ts.drop 4).take 4), ts)
          { s with pos := s.pos + 4 + 4 + 8 } := by
    exact read_timestamp_eval (by simpa using d2) hts
  simp only [read_dgram_header, e1, e2, e3, htag]
  norm_num

lemma findFirstTag_ne_nil {B : List Nat} {j : Nat}
    (h : findFirstTag B = some j) : B ≠ [] := by
  intro hB
  rw [hB] at h
  simp [findFirstTag] at h

lemma findFirstTag_take {B : List Nat} {j k : Nat}
    (h : findFirstTag B = some j) (hk : j + 3 ≤ k) :
    findFirstTag (B.take k) = some j := by
  induction B generalizing j k with
  | nil => simp [findFirstTag] at h
  | cons x tail ih =>
    match tail with
    | [] => simp [findFirstTag] at h
    | [y] => simp [findFirstTag] at h
    | y :: z :: rest =>
      obtain ⟨k1, rfl⟩ : ∃ k1, k = k1 + 1 := ⟨k - 1, by omega⟩
      obtain ⟨k2, rfl⟩ : ∃ k2, k1 = k2 + 1 := ⟨k1 - 1, by omega⟩
      obtain ⟨k3, rfl⟩ : ∃ k3, k2 = k3 + 1 := ⟨k2 - 1, by omega⟩
      rw [findFirstTag] at h
      simp only [List.take_succ_cons]
      rw [findFirstTag]
      by_cases hc : tagSet.contains [x, y, z] = true
      · rw [if_pos hc] at h ⊢
        exact h
      · rw [if_neg hc] at h ⊢
        obtain ⟨j', hj', rfl⟩ : ∃ j', findFirstTag (y :: z :: rest) = some j'
            ∧ j = j' + 1 := by
          cases hr : findFirstTag (y :: z :: rest) with
          | none => rw [hr] at h; simp at h
          | some v => rw [hr] at h; exact ⟨v, rfl, by simpa using h.symm⟩
        have := ih (j := j') (k := k3 + 1 + 1) hj' (by omega)
        simp only [List.take_succ_cons] at this
        rw [this]
        rfl

lemma findFirstTag_at4 {a0 a1 a2 a3 t0 t1 t2 : Nat} {rest : List Nat}
    (g0 : tagSet.contains [a0, a1, a2] = false)
    (g1 : tagSet.contains [a1, a2, a3] = false)
    (g2 : tagSet.contains [a2, a3, t0] = false)
    (g3 : tagSet.contains [a3, t0, t1] = false)
    (grec : tagSet.contains [t0, t1, t2] = true) :
    findFirstTag (a0 :: a1 :: a2 :: a3 :: t0 :: t1 :: t2 :: rest) = some 4 := by
  rw [findFirstTag, if_neg (by simpa using g0), findFirstTag,
    if_neg (by simpa using g1), findFirstTag, if_neg (by simpa using g2),
    findFirstTag, if_neg (by simpa using g3), findFirstTag, if_pos grec]
  rfl

lemma find_next_eval {fuel : Nat} {s : FileState} {B : List Nat} {j : Nat}
    (hS : s.data.drop s.pos = B)
    (hfind : findFirstTag B = some j) (hj3 : j + 3 ≤ SEARCH_BUF_BYTES)
    (hj4 : 4 ≤ s.pos + j) :
    find_next_datagram (fuel + 1) s = .ok () { s with pos := s.pos + j - 4 } := by
  have hft : findFirstTag ((s.data.drop s.pos).take SEARCH_BUF_BYTES) = some j := by
    rw [hS]; exact findFirstTag_take hfind hj3
  have hne : (s.data.drop s.pos).take SEARCH_BUF_BYTES ≠ [] :=
    findFirstTag_ne_nil hft
  have c1 : (((s.data.drop s.pos).take SEARCH_BUF_BYTES).length = 0) = False :=
    eq_false (fun hc => hne (List.length_eq_zero.mp hc))
  have c2 : (((s.pos : Nat) : Int) + (j : Int) - 4 < 0) = False :=
    eq_false (by omega)
  simp only [find_next_datagram, find_next_loop, tellBytes, readBytes, hft, c1,
    if_false, seekSet, c2]
  have : ((s.pos : Int) + (j : Int) - 4).toNat = s.pos + j - 4 := by omega
  simp [this]

/-- Consuming one well-formed frame: `_read_next_dgram` with no pre-read
header takes the happy path end to end — reads the envelope, the payload and
the matching trailing size, advances the cursor by the full on-disk frame
length `n + 8`, increments the logical index, and returns the decoded
record built from the frame bytes with `bytes_read = n + 20`. -/
lemma read_next_wf {fuel : Nat} {s : FileState} {n : Nat} {tag ts p rest : List Nat}
    (hS : s.data.drop s.pos = mkFrame n tag ts p ++ rest)
    (htag : tag.length = 4) (hts : ts.length = 8) (hpl : p.length = n - 12)
    (h16 : 16 ≤ n) (hn : n < 2147483648) (hraw : s.return_raw = false) :
    read_next_dgram (fuel + 1) none s
      = .ok (.nice (convert_raw_datagram ((tag ++ ts) ++ p) ((n : Int) + 20)))
          { s with pos := s.pos + (n + 8), dgramIndex := s.dgramIndex + 1 } := by
  have hS' : s.data.drop s.pos = le4 n ++ (tag ++ (ts ++ (p ++ (le4 n ++ rest)))) := by
    simpa [mkFrame, List.append_assoc] using hS
  have ehdr := read_dgram_header_eval hS' htag hts hn
  have d16 : s.data.drop (s.pos + 16) = p ++ (le4 n ++ rest) := by
    have hS16 : s.data.drop s.pos
        = (le4 n ++ (tag ++ ts)) ++ (p ++ (le4 n ++ rest)) := by
      simpa [List.append_assoc] using hS'
    have := drop_add (k := 16) hS16 (by simp [le4, htag, hts])
    simpa using this
  have epay : readBytes (n - 12) { s with pos := s.pos + 16 }
      = (p, { s with pos := s.pos + 16 + (n - 12) }) :=
    readBytes_eval (by simpa using d16) hpl
  have d20 : s.data.drop (s.pos + 16 + (n - 12)) = le4 n ++ rest := by
    have := drop_add (p := s.pos + 16) d16 hpl
    simpa using this
  have etr : read_dgram_size { s with pos := s.pos + 16 + (n - 12) }
      = .ok (n : Int) { s with pos := s.pos + 16 + (n - 12) + 4 } :=
    read_dgram_size_eval (by simpa using d20) hn
  have h16' : ¬((n : Int) < 16) := by exact_mod_cast not_lt.mpr h16
  have ctn : ((n : Int) - 12).toNat = n - 12 := by omega
  simp only [read_next_dgram, ehdr]
  simp only [ctn, epay, etr]
  rw [if_neg h16']
  have hlenN : (tag ++ ts ++ p).length = n := by
    simp [htag, hts, hpl]
    omega
  rw [if_neg (show ¬(((tag ++ ts ++ p).length : Int) < (n : Int)) by
    rw [hlenN]; exact lt_irrefl _)]
  rw [if_neg (show ¬((n : Int) ≠ (n : Int)) from fun hc => hc rfl)]
  rw [hraw, if_neg Bool.false_ne_true]
  rw [hlenN]
  have hpos : s.pos + 16 + (n - 12) + 4 = s.pos + (n + 8) := by omega
  rw [hpos]


/-! ## Preservation lemmas -/

@[simp]
lemma readBytes_snd_data (k : Nat) (s : FileState) :
    (readBytes k s).2.data = s.data := rfl

@[simp]
lemma readBytes_snd_dgramIndex (k : Nat) (s : FileState) :
    (readBytes k s).2.dgramIndex = s.dgramIndex := rfl

@[simp]
lemma readBytes_snd_return_raw (k : Nat) (s : FileState) :
    (readBytes k s).2.return_raw = s.return_raw := rfl


lemma sameFile_self (s : FileState) : sameFile s s := ⟨rfl, rfl, rfl⟩

lemma sameFile_read_dgram_size (s : FileState) :
    sameFile s (read_dgram_size s).finalState := by
  unfold sameFile read_dgram_size
  simp only []
  split <;> simp [RResult.finalState]

lemma sameFile_read_timestamp (s : FileState) :
    sameFile s (read_timestamp s).finalState := by
  unfold sameFile read_timestamp
  simp only []
  split
  · split <;> simp [RResult.finalState]
  · simp [RResult.finalState]

lemma sameFile_read_dgram_header (s : FileState) :
    sameFile s (read_dgram_header s).finalState := by
  unfold read_dgram_header
  cases hq : read_dgram_size s with
  | err e s1 =>
    have h1 := sameFile_read_dgram_size s
    rw [hq] at h1
    simp only [RResult.finalState] at h1
    obtain ⟨hd, hi, hr⟩ := h1
    simp only []
    split <;> simp [sameFile, RResult.finalState, hd, hi, hr]
  | ok v s1 =>
    have h1 := sameFile_read_dgram_size s
    rw [hq] at h1
    simp only [RResult.finalState] at h1
    obtain ⟨hd, hi, hr⟩ := h1
    simp only []
    split
    · split <;> simp [sameFile, RResult.finalState, hd, hi, hr]
    · cases hq2 : read_timestamp (readBytes 4 s1).2 with
      | err e2 s3 =>
        have h2 := sameFile_read_timestamp (readBytes 4 s1).2
        rw [hq2] at h2
        simp only [RResult.finalState] at h2
        obtain ⟨h2d, h2i, h2r⟩ := h2
        simp only [readBytes_snd_data, readBytes_snd_dgramIndex,
          readBytes_snd_return_raw] at h2d h2i h2r
        simp only []
        simp [sameFile, RResult.finalState, hd, hi, hr, h2d, h2i, h2r]
      | ok v2 s3 =>
        have h2 := sameFile_read_timestamp (readBytes 4 s1).2
        rw [hq2] at h2
        simp only [RResult.finalState] at h2
        obtain ⟨h2d, h2i, h2r⟩ := h2
        simp only [readBytes_snd_data, readBytes_snd_dgramIndex,
          readBytes_snd_return_raw] at h2d h2i h2r
        simp only []
        simp [sameFile, RResult.finalState, hd, hi, hr, h2d, h2i, h2r]

lemma sameFile_find_next_loop (fuel : Nat) :
    ∀ (cfp : Int) (s : FileState),
      sameFile s (find_next_loop fuel cfp s).finalState := by
  induction fuel with
  | zero => intro cfp s; exact sameFile_self _
  | succ m ih =>
    intro cfp s
    rw [find_next_loop]
    split
    · exact ⟨rfl, rfl, rfl⟩
    · split
      · unfold sameFile seekSet
        split <;> simp [RResult.finalState]
      · have := ih (cfp + (SEARCH_BUF_BYTES : Int)) (readBytes SEARCH_BUF_BYTES s).2
        obtain ⟨hd, hi, hr⟩ := this
        simp only [readBytes_snd_data, readBytes_snd_dgramIndex,
          readBytes_snd_return_raw] at hd hi hr
        exact ⟨hd, hi, hr⟩

lemma sameFile_find_next (fuel : Nat) (s : FileState) :
    sameFile s (find_next_datagram fuel s).finalState :=
  sameFile_find_next_loop fuel _ s


lemma read_next_index (fuel : Nat) :
    ∀ {h? : Option DgramHeader} {s : FileState} {d : Dgram} {s' : FileState},
      read_next_dgram fuel h? s = .ok d s' →
      s'.dgramIndex = s.dgramIndex + 1 := by
  induction fuel with
  | zero =>
    intro h? s d s' h
    simp [read_next_dgram] at h
  | succ m ih =>
    intro h? s d s' h
    simp only [read_next_dgram] at h
    cases h? with
    | none =>
      cases hq : read_dgram_header s with
      | err e s1 =>
        rw [hq] at h
        simp at h
      | ok hd0 s1 =>
        rw [hq] at h
        try simp only [] at h
        have p1 := sameFile_read_dgram_header s
        rw [hq] at p1
        simp only [RResult.finalState] at p1
        obtain ⟨p1d, p1i, p1r⟩ := p1
        by_cases hsz : hd0.size < 16
        · rw [if_pos hsz] at h
          cases hfn : find_next_datagram m s1 with
          | err e2 s2 => rw [hfn] at h; simp at h
          | ok u s2 =>
            rw [hfn] at h
            try simp only [] at h
            obtain ⟨p2d, p2i, p2r⟩ := sameFile_find_next m s1
            rw [hfn] at p2d p2i p2r
            simp only [RResult.finalState] at p2i
            have hidx := ih h
            omega
        · rw [if_neg hsz] at h
          by_cases hshort :
              (((hd0.raw_bytes ++ (readBytes (hd0.size - 12).toNat s1).1).length : Int)
                < hd0.size)
          · rw [if_pos hshort] at h
            cases hfn : find_next_datagram m (readBytes (hd0.size - 12).toNat s1).2 with
            | err e2 s2 => rw [hfn] at h; simp at h
            | ok u s2 =>
              rw [hfn] at h
              try simp only [] at h
              obtain ⟨p2d, p2i, p2r⟩ :=
                sameFile_find_next m (readBytes (hd0.size - 12).toNat s1).2
              rw [hfn] at p2i
              simp only [RResult.finalState, readBytes_snd_dgramIndex] at p2i
              have hidx := ih h
              omega
          · rw [if_neg hshort] at h
            cases hts2 : read_dgram_size (readBytes (hd0.size - 12).toNat s1).2 with
            | err e3 s3 =>
              rw [hts2] at h
              try simp only [] at h
              cases hsk : seekSet (s.pos : Int) s3 with
              | err e4 s4 => rw [hsk] at h; simp at h
              | ok u s4 => rw [hsk] at h; simp at h
            | ok chk s3 =>
              rw [hts2] at h
              try simp only [] at h
              obtain ⟨p3d, p3i, p3r⟩ :=
                sameFile_read_dgram_size (readBytes (hd0.size - 12).toNat s1).2
              rw [hts2] at p3i
              simp only [RResult.finalState, readBytes_snd_dgramIndex] at p3i
              by_cases hne : hd0.size ≠ chk
              · rw [if_pos hne] at h
                cases hfn : find_next_datagram m s3 with
                | err e2 s2 => rw [hfn] at h; simp at h
                | ok u s2 =>
                  rw [hfn] at h
                  try simp only [] at h
                  obtain ⟨p2d, p2i, p2r⟩ := sameFile_find_next m s3
                  rw [hfn] at p2i
                  simp only [RResult.finalState] at p2i
                  have hidx := ih h
                  omega
              · rw [if_neg hne] at h
                by_cases hrr : s3.return_raw = true
                · rw [if_pos hrr] at h
                  injection h with hA hS
                  rw [← hS]
                  simp only []
                  omega
                · rw [if_neg hrr] at h
                  injection h with hA hS
                  rw [← hS]
                  simp only []
                  omega
    | some hdr =>
      try simp only [] at h
      by_cases hsz : hdr.size < 16
      · rw [if_pos hsz] at h
        cases hfn : find_next_datagram m s with
        | err e2 s2 => rw [hfn] at h; simp at h
        | ok u s2 =>
          rw [hfn] at h
          try simp only [] at h
          obtain ⟨p2d, p2i, p2r⟩ := sameFile_find_next m s
          rw [hfn] at p2i
          simp only [RResult.finalState] at p2i
          have hidx := ih h
          omega
      · rw [if_neg hsz] at h
        by_cases hshort :
            (((hdr.raw_bytes ++ (readBytes (hdr.size - 12).toNat s).1).length : Int)
              < hdr.size)
        · rw [if_pos hshort] at h
          cases hfn : find_next_datagram m (readBytes (hdr.size - 12).toNat s).2 with
          | err e2 s2 => rw [hfn] at h; simp at h
          | ok u s2 =>
            rw [hfn] at h
            try simp only [] at h
            obtain ⟨p2d, p2i, p2r⟩ :=
              sameFile_find_next m (readBytes (hdr.size - 12).toNat s).2
            rw [hfn] at p2i
            simp only [RResult.finalState, readBytes_snd_dgramIndex] at p2i
            have hidx := ih h
            omega
        · rw [if_neg hshort] at h
          cases hts2 : read_dgram_size (readBytes (hdr.size - 12).toNat s).2 with
          | err e3 s3 =>
            rw [hts2] at h
            try simp only [] at h
            cases hsk : seekSet ((s.pos : Int) - 16) s3 with
            | err e4 s4 => rw [hsk] at h; simp at h
            | ok u s4 => rw [hsk] at h; simp at h
          | ok chk s3 =>
            rw [hts2] at h
            try simp only [] at h
            obtain ⟨p3d, p3i, p3r⟩ :=
              sameFile_read_dgram_size (readBytes (hdr.size - 12).toNat s).2
            rw [hts2] at p3i
            simp only [RResult.finalState, readBytes_snd_dgramIndex] at p3i
            by_cases hne : hdr.size ≠ chk
            · rw [if_pos hne] at h
              cases hfn : find_next_datagram m s3 with
              | err e2 s2 => rw [hfn] at h; simp at h
              | ok u s2 =>
                rw [hfn] at h
                try simp only [] at h
                obtain ⟨p2d, p2i, p2r⟩ := sameFile_find_next m s3
                rw [hfn] at p2i
                simp only [RResult.finalState] at p2i
                have hidx := ih h
                omega
            · rw [if_neg hne] at h
              by_cases hrr : s3.return_raw = true
              · rw [if_pos hrr] at h
                injection h with hA hS
                rw [← hS]
                simp only []
                omega
              · rw [if_neg hrr] at h
                injection h with hA hS
                rw [← hS]
                simp only []
                omega


lemma skip_index {fuel : Nat} {h? : Option DgramHeader} {s s' : FileState}
    (h : skip fuel h? s = .ok () s') : s'.dgramIndex = s.dgramIndex + 1 := by
  unfold skip at h
  have hcore : ∀ (hdr : DgramHeader) (s1 : FileState),
      (if hdr.size < 16 then
        match find_next_datagram fuel s1 with
        | .err e s2 => RResult.err e s2
        | .ok _ s2 => RResult.ok () { s2 with dgramIndex := s2.dgramIndex + 1 }
      else
        match seekCur (hdr.size - 12) s1 with
        | .err e s2 => RResult.err e s2
        | .ok _ s2 =>
          match read_dgram_size s2 with
          | .err e s3 => RResult.err e s3
          | .ok check s3 =>
            if hdr.size ≠ check then
              match find_next_datagram fuel s3 with
              | .err e s4 => RResult.err e s4
              | .ok _ s4 => RResult.ok () { s4 with dgramIndex := s4.dgramIndex + 1 }
            else RResult.ok () { s3 with dgramIndex := s3.dgramIndex + 1 })
        = RResult.ok () s' → s'.dgramIndex = s1.dgramIndex + 1 := by
    intro hdr s1 hh
    by_cases hsz : hdr.size < 16
    · rw [if_pos hsz] at hh
      cases hfn : find_next_datagram fuel s1 with
      | err e2 s2 => rw [hfn] at hh; simp at hh
      | ok u s2 =>
        rw [hfn] at hh
        try simp only [] at hh
        obtain ⟨p2d, p2i, p2r⟩ := sameFile_find_next fuel s1
        rw [hfn] at p2i
        simp only [RResult.finalState] at p2i
        injection hh with hU hS
        rw [← hS]
        simp only []
        omega
    · rw [if_neg hsz] at hh
      cases hsk : seekCur (hdr.size - 12) s1 with
      | err e2 s2 => rw [hsk] at hh; simp at hh
      | ok u s2 =>
        rw [hsk] at hh
        try simp only [] at hh
        have p2i : s2.dgramIndex = s1.dgramIndex := by
          unfold seekCur at hsk
          split at hsk
          · simp at hsk
          · injection hsk with hU2 hS2
            rw [← hS2]
        cases hts : read_dgram_size s2 with
        | err e3 s3 => rw [hts] at hh; simp at hh
        | ok chk s3 =>
          rw [hts] at hh
          try simp only [] at hh
          obtain ⟨p3d, p3i, p3r⟩ := sameFile_read_dgram_size s2
          rw [hts] at p3i
          simp only [RResult.finalState] at p3i
          by_cases hne : hdr.size ≠ chk
          · rw [if_pos hne] at hh
            cases hfn : find_next_datagram fuel s3 with
            | err e2 s4 => rw [hfn] at hh; simp at hh
            | ok u s4 =>
              rw [hfn] at hh
              try simp only [] at hh
              obtain ⟨p4d, p4i, p4r⟩ := sameFile_find_next fuel s3
              rw [hfn] at p4i
              simp only [RResult.finalState] at p4i
              injection hh with hU hS
              rw [← hS]
              simp only []
              omega
          · rw [if_neg hne] at hh
            injection hh with hU hS
            rw [← hS]
            simp only []
            omega
  cases h? with
  | none =>
    cases hq : read_dgram_header s with
    | err e s1 => rw [hq] at h; simp at h
    | ok hd0 s1 =>
      rw [hq] at h
      try simp only [] at h
      have p1 := sameFile_read_dgram_header s
      rw [hq] at p1
      simp only [RResult.finalState] at p1
      obtain ⟨p1d, p1i, p1r⟩ := p1
      have := hcore hd0 s1 h
      omega
  | some hdr =>
    try simp only [] at h
    exact hcore hdr s h


/-- Consuming one well-formed frame when the header has already been read by
`get_header`/`peek(rewind=False)` and the cursor is at the payload start. -/
lemma read_next_wf_hdr {fuel : Nat} {s : FileState} {n : Nat} {h : DgramHeader}
    {p rest : List Nat}
    (hS : s.data.drop s.pos = p ++ (le4 n ++ rest))
    (hsz : h.size = (n : Int)) (hrb : h.raw_bytes.length = 12)
    (hpl : p.length = n - 12) (h16 : 16 ≤ n) (hn : n < 2147483648)
    (hraw : s.return_raw = false) :
    read_next_dgram (fuel + 1) (some h) s
      = .ok (.nice (convert_raw_datagram (h.raw_bytes ++ p) ((n : Int) + 20)))
          { s with pos := s.pos + (n - 8), dgramIndex := s.dgramIndex + 1 } := by
  have epay : readBytes (n - 12) s = (p, { s with pos := s.pos + (n - 12) }) :=
    readBytes_eval hS hpl
  have d2 : s.data.drop (s.pos + (n - 12)) = le4 n ++ rest := drop_add hS hpl
  have etr : read_dgram_size { s with pos := s.pos + (n - 12) }
      = .ok (n : Int) { s with pos := s.pos + (n - 12) + 4 } :=
    read_dgram_size_eval (by simpa using d2) hn
  have h16' : ¬((n : Int) < 16) := by exact_mod_cast not_lt.mpr h16
  have ctn : ((n : Int) - 12).toNat = n - 12 := by omega
  simp only [read_next_dgram, hsz]
  simp only [ctn, epay, etr]
  rw [if_neg h16']
  have hlenN : (h.raw_bytes ++ p).length = n := by
    simp [hrb, hpl]
    omega
  rw [if_neg (show ¬(((h.raw_bytes ++ p).length : Int) < (n : Int)) by
    rw [hlenN]; exact lt_irrefl _)]
  rw [if_neg (show ¬((n : Int) ≠ (n : Int)) from fun hc => hc rfl)]
  rw [hraw, if_neg Bool.false_ne_true]
  rw [hlenN]
  have hpos : s.pos + (n - 12) + 4 = s.pos + (n - 8) := by omega
  rw [hpos]

/-- At end of stream the header read raises `SimradEOF` and leaves the state
untouched. -/
lemma read_dgram_header_eof {s : FileState} (hpos : s.pos = s.data.length) :
    read_dgram_header s = .err .eof s := by
  have hdrop : s.data.drop s.pos = [] := by rw [hpos, List.drop_length]
  have h4 : readBytes 4 s = ([], s) := by
    simp [readBytes, hdrop]
  have hae : at_eof s = true := by simp [at_eof, hpos]
  simp [read_dgram_header, read_dgram_size, h4, hae]

/-- At end of stream `_read_next_dgram` raises `SimradEOF` untouched. -/
lemma read_next_eof {fuel : Nat} {s : FileState} (hpos : s.pos = s.data.length) :
    read_next_dgram (fuel + 1) none s = .err .eof s := by
  simp only [read_next_dgram, read_dgram_header_eof hpos]

/-- At end of stream `read(1)` raises `SimradEOF` untouched. -/
lemma read1_eof {fuel : Nat} {s : FileState} (hpos : s.pos = s.data.length) :
    read1 (fuel + 1) none s = .err .eof s := by
  simp [read1, read_next_eof hpos, at_eof, hpos]

/-- A short (fewer than 4 bytes remaining) size read raises
`DatagramReadError` and seeks back over the bytes read. -/
lemma read_dgram_size_short {s : FileState} {rest : List Nat}
    (hS : s.data.drop s.pos = rest) (hlt : rest.length < 4) :
    read_dgram_size s = .err .readError s := by
  have htake : (s.data.drop s.pos).take 4 = rest := by
    rw [hS]
    exact List.take_of_length_le (by omega)
  have harith : s.pos + rest.length - rest.length = s.pos := by omega
  simp [read_dgram_size, readBytes, htake, Nat.ne_of_lt hlt, harith]


/-! ## State shapes on success -/

lemma read_dgram_size_ok_state {s : FileState} {v : Int} {s1 : FileState}
    (h : read_dgram_size s = .ok v s1) : s1 = { s with pos := s.pos + 4 } := by
  unfold read_dgram_size at h
  simp only [readBytes] at h
  by_cases hc : ((s.data.drop s.pos).take 4).length ≠ 4
  · rw [if_pos hc] at h
    simp at h
  · rw [if_neg hc] at h
    injection h with hv hs
    rw [← hs]
    have hc' : ((s.data.drop s.pos).take 4).length = 4 := not_ne_iff.mp hc
    rw [hc']

lemma read_timestamp_ok_state {s : FileState} {tsv : Nat × Nat × List Nat}
    {s1 : FileState} (h : read_timestamp s = .ok tsv s1) :
    s1 = { s with pos := s.pos + 8 } ∧ tsv.2.2.length = 8 := by
  unfold read_timestamp at h
  simp only [readBytes] at h
  by_cases hc : ((s.data.drop s.pos).take 8).length ≠ 8
  · rw [if_pos hc] at h
    split at h <;> simp at h
  · rw [if_neg hc] at h
    injection h with hv hs
    have hc' : ((s.data.drop s.pos).take 8).length = 8 := not_ne_iff.mp hc
    constructor
    · rw [← hs, hc']
    · rw [← hv]
      exact hc'

lemma read_dgram_header_ok_state {s : FileState} {h0 : DgramHeader}
    {s1 : FileState} (hq : read_dgram_header s = .ok h0 s1) :
    s1 = { s with pos := s.pos + 16 } ∧ h0.raw_bytes.length = 12 := by
  unfold read_dgram_header at hq
  cases hsz : read_dgram_size s with
  | err e t =>
    rw [hsz] at hq
    try simp only [] at hq
    split at hq <;> simp at hq
  | ok v t =>
    rw [hsz] at hq
    have ht := read_dgram_size_ok_state hsz
    try simp only [] at hq
    by_cases hc : ((readBytes 4 t).1).length ≠ 4
    · rw [if_pos hc] at hq
      split at hq <;> simp at hq
    · rw [if_neg hc] at hq
      have hc' : ((readBytes 4 t).1).length = 4 := not_ne_iff.mp hc
      cases hts : read_timestamp (readBytes 4 t).2 with
      | err e2 s3 =>
        rw [hts] at hq
        simp at hq
      | ok tsv s3 =>
        rw [hts] at hq
        try simp only [] at hq
        obtain ⟨hs3, hbuf⟩ := read_timestamp_ok_state hts
        injection hq with hh hs
        constructor
        · rw [← hs, hs3]
          have : (readBytes 4 t).2 = { t with pos := t.pos + 4 } := by
            have hc2 := hc'
            simp only [readBytes] at hc2
            simp only [readBytes]
            rw [hc2]
          rw [this, ht]
        · rw [← hh]
          simp only []
          rw [List.length_append, hc', hbuf]

lemma seekCur_ok_state {off : Int} {s : FileState} {u : Unit} {s1 : FileState}
    (h : seekCur off s = .ok u s1) :
    s1 = { s with pos := ((s.pos : Int) + off).toNat } := by
  unfold seekCur at h
  split at h
  · simp at h
  · injection h with hu hs
    rw [← hs]

lemma sameFile_seekCur (off : Int) (s : FileState) :
    sameFile s (seekCur off s).finalState := by
  unfold sameFile seekCur
  split <;> simp [RResult.finalState]


/-- `peek` never touches the logical datagram index, in either rewind mode
and on every path, success or failure. -/
lemma peek_index (b : Bool) (s : FileState) :
    ((peek b s).finalState).dgramIndex = s.dgramIndex := by
  unfold peek
  cases hq : read_dgram_header s with
  | err e s1 =>
    have p1 := sameFile_read_dgram_header s
    rw [hq] at p1
    exact p1.2.1
  | ok h0 s1 =>
    have p1 := sameFile_read_dgram_header s
    rw [hq] at p1
    simp only [RResult.finalState] at p1
    obtain ⟨p1d, p1i, p1r⟩ := p1
    try simp only []
    by_cases hr0 : h0.dtype = RAW0
    · rw [if_pos hr0]
      by_cases hl : ((readBytes 2 s1).1).length ≠ 2
      · rw [if_pos hl]
        simp only [RResult.finalState, readBytes_snd_dgramIndex]
        exact p1i
      · rw [if_neg hl]
        cases hsk : seekCur (if b = true then (-18 : Int) else -2)
            (readBytes 2 s1).2 with
        | err e2 s3 =>
          have p2 := sameFile_seekCur (if b = true then (-18 : Int) else -2)
            (readBytes 2 s1).2
          rw [hsk] at p2
          obtain ⟨q2d, q2i, q2r⟩ := p2
          simp only [RResult.finalState, readBytes_snd_dgramIndex] at q2i
          simp only [RResult.finalState]
          rw [q2i, p1i]
        | ok u s3 =>
          have p2 := sameFile_seekCur (if b = true then (-18 : Int) else -2)
            (readBytes 2 s1).2
          rw [hsk] at p2
          obtain ⟨q2d, q2i, q2r⟩ := p2
          simp only [RResult.finalState, readBytes_snd_dgramIndex] at q2i
          simp only [RResult.finalState]
          rw [q2i, p1i]
    · rw [if_neg hr0]
      by_cases hr34 : h0.dtype = RAW3 ∨ h0.dtype = RAW4
      · rw [if_pos hr34]
        by_cases hl : ((readBytes 128 s1).1).length ≠ 128
        · rw [if_pos hl]
          simp only [RResult.finalState, readBytes_snd_dgramIndex]
          exact p1i
        · rw [if_neg hl]
          cases hsk : seekCur (if b = true then (-144 : Int) else -128)
              (readBytes 128 s1).2 with
          | err e2 s3 =>
            have p2 := sameFile_seekCur (if b = true then (-144 : Int) else -128)
              (readBytes 128 s1).2
            rw [hsk] at p2
            obtain ⟨q2d, q2i, q2r⟩ := p2
            simp only [RResult.finalState, readBytes_snd_dgramIndex] at q2i
            simp only [RResult.finalState]
            rw [q2i, p1i]
          | ok u s3 =>
            have p2 := sameFile_seekCur (if b = true then (-144 : Int) else -128)
              (readBytes 128 s1).2
            rw [hsk] at p2
            obtain ⟨q2d, q2i, q2r⟩ := p2
            simp only [RResult.finalState, readBytes_snd_dgramIndex] at q2i
            simp only [RResult.finalState]
            rw [q2i, p1i]
      · rw [if_neg hr34]
        cases b with
        | true =>
          rw [if_pos rfl]
          cases hsk : seekCur (-16 : Int) s1 with
          | err e2 s3 =>
            have p2 := sameFile_seekCur (-16 : Int) s1
            rw [hsk] at p2
            obtain ⟨q2d, q2i, q2r⟩ := p2
            simp only [RResult.finalState] at q2i
            simp only [RResult.finalState]
            rw [q2i, p1i]
          | ok u s3 =>
            have p2 := sameFile_seekCur (-16 : Int) s1
            rw [hsk] at p2
            obtain ⟨q2d, q2i, q2r⟩ := p2
            simp only [RResult.finalState] at q2i
            simp only [RResult.finalState]
            rw [q2i, p1i]
        | false =>
          rw [if_neg (by simp)]
          simp only [RResult.finalState]
          exact p1i


/-- A successful non-consuming peek restores the state exactly. -/
lemma peek_true_state {s : FileState} {pr : PeekResult} {s' : FileState}
    (hp : peek true s = .ok pr s') : s' = s := by
  unfold peek at hp
  cases hq : read_dgram_header s with
  | err e s1 =>
    rw [hq] at hp
    simp at hp
  | ok h0 s1 =>
    rw [hq] at hp
    try simp only [] at hp
    obtain ⟨hs1, hrb⟩ := read_dgram_header_ok_state hq
    by_cases hr0 : h0.dtype = RAW0
    · rw [if_pos hr0] at hp
      by_cases hl : ((readBytes 2 s1).1).length ≠ 2
      · rw [if_pos hl] at hp
        simp at hp
      · rw [if_neg hl] at hp
        have hl' : ((readBytes 2 s1).1).length = 2 := not_ne_iff.mp hl
        simp only [if_true] at hp
        cases hsk : seekCur (-18 : Int) (readBytes 2 s1).2 with
        | err e2 s3 =>
          rw [hsk] at hp
          simp at hp
        | ok u s3 =>
          rw [hsk] at hp
          try simp only [] at hp
          injection hp with hpr hs'
          rw [← hs']
          have hr2 : (readBytes 2 s1).2 = { s1 with pos := s1.pos + 2 } := by
            have hc2 := hl'
            simp only [readBytes] at hc2
            simp only [readBytes]
            rw [hc2]
          have hst := seekCur_ok_state hsk
          rw [hr2, hs1] at hst
          rw [hst]
          simp only []
          have htn : (((s.pos + 16 + 2 : Nat) : Int) + (-18)).toNat = s.pos := by
            omega
          rw [htn]
    · rw [if_neg hr0] at hp
      by_cases hr34 : h0.dtype = RAW3 ∨ h0.dtype = RAW4
      · rw [if_pos hr34] at hp
        by_cases hl : ((readBytes 128 s1).1).length ≠ 128
        · rw [if_pos hl] at hp
          simp at hp
        · rw [if_neg hl] at hp
          have hl' : ((readBytes 128 s1).1).length = 128 := not_ne_iff.mp hl
          simp only [if_true] at hp
          cases hsk : seekCur (-144 : Int) (readBytes 128 s1).2 with
          | err e2 s3 =>
            rw [hsk] at hp
            simp at hp
          | ok u s3 =>
            rw [hsk] at hp
            try simp only [] at hp
            injection hp with hpr hs'
            rw [← hs']
            have hr2 : (readBytes 128 s1).2 = { s1 with pos := s1.pos + 128 } := by
              have hc2 := hl'
              simp only [readBytes] at hc2
              simp only [readBytes]
              rw [hc2]
            have hst := seekCur_ok_state hsk
            rw [hr2, hs1] at hst
            rw [hst]
            simp only []
            have htn : (((s.pos + 16 + 128 : Nat) : Int) + (-144)).toNat = s.pos := by
              omega
            rw [htn]
      · rw [if_neg hr34] at hp
        simp only [if_true] at hp
        cases hsk : seekCur (-16 : Int) s1 with
        | err e2 s3 =>
          rw [hsk] at hp
          simp at hp
        | ok u s3 =>
          rw [hsk] at hp
          try simp only [] at hp
          injection hp with hpr hs'
          rw [← hs']
          have hst := seekCur_ok_state hsk
          rw [hs1] at hst
          rw [hst]
          simp only []
          have htn : (((s.pos + 16 : Nat) : Int) + (-16)).toNat = s.pos := by
            omega
          rw [htn]


/-- `peek(rewind=False)` on a `RAW0` frame: the 2-byte channel lookahead is
read and then rewound, leaving the cursor at the start of the payload,
16 bytes past the frame start (not after the lookahead bytes). -/
lemma peek_false_raw0 {s : FileState} {n : Nat} {ts p rest : List Nat}
    (hS : s.data.drop s.pos = mkFrame n RAW0 ts p ++ rest)
    (hts : ts.length = 8) (hpl : p.length = n - 12)
    (h16 : 16 ≤ n) (hn : n < 2147483648) :
    peek false s
      = .ok { hdr := { size := (n : Int), dtype := RAW0,
                       low_date := leUInt32 (ts.take 4),
                       high_date := leUInt32 ((ts.drop 4).take 4),
                       raw_bytes := RAW0 ++ ts, bytes_read := (n : Int) + 20 },
              channel := some (toInt16 (leUInt16 (p.take 2))),
              channel_id := none }
          { s with pos := s.pos + 16 } := by
  have hS' : s.data.drop s.pos
      = le4 n ++ (RAW0 ++ (ts ++ (p ++ (le4 n ++ rest)))) := by
    simpa [mkFrame, List.append_assoc] using hS
  have ehdr := read_dgram_header_eval hS' (by rfl) hts hn
  have d16 : s.data.drop (s.pos + 16) = p ++ (le4 n ++ rest) := by
    have hS16 : s.data.drop s.pos
        = (le4 n ++ (RAW0 ++ ts)) ++ (p ++ (le4 n ++ rest)) := by
      simpa [List.append_assoc] using hS'
    have := drop_add (k := 16) hS16 (by simp [le4, RAW0, hts])
    simpa using this
  have hsplit : p.take 2 ++ (p.drop 2 ++ (le4 n ++ rest)) = p ++ (le4 n ++ rest) := by
    rw [← List.append_assoc, List.take_append_drop]
  have hlen2 : (p.take 2).length = 2 := by
    rw [List.length_take]
    omega
  have e2 : readBytes 2 { s with pos := s.pos + 16 }
      = (p.take 2, { s with pos := s.pos + 16 + 2 }) := by
    exact @readBytes_eval _ (p.take 2) (p.drop 2 ++ (le4 n ++ rest)) 2
      (by simpa using d16.trans hsplit.symm) hlen2
  simp only [peek, ehdr]
  try simp only []
  simp only [if_true]
  simp only [e2]
  rw [if_neg (show ¬((p.take 2).length ≠ 2) from not_ne_iff.mpr hlen2)]
  rw [if_neg Bool.false_ne_true]
  unfold seekCur
  rw [if_neg (show ¬(((s.pos + 16 + 2 : Nat) : Int) + (-2) < 0) by omega)]
  try simp only []
  have htn : (((s.pos + 16 + 2 : Nat) : Int) + (-2)).toNat = s.pos + 16 := by
    omega
  rw [htn]


set_option maxRecDepth 4000 in
/-- `peek(rewind=False)` on a well-formed `RAW3`/`RAW4` frame: reads the
header and the 128-byte channel-identifier lookahead, then seeks back over
the lookahead, leaving the cursor at the start of the payload (frame start
plus 16). -/
lemma peek_false_raw34 {s : FileState} {n : Nat} {tg ts p rest : List Nat}
    (h34 : tg = RAW3 ∨ tg = RAW4)
    (hS : s.data.drop s.pos = mkFrame n tg ts p ++ rest)
    (hts : ts.length = 8) (hpl : p.length = n - 12) (h128 : 128 ≤ p.length)
    (hn : n < 2147483648) :
    peek false s
      = .ok { hdr := { size := (n : Int), dtype := tg,
                       low_date := leUInt32 (ts.take 4),
                       high_date := leUInt32 ((ts.drop 4).take 4),
                       raw_bytes := tg ++ ts, bytes_read := (n : Int) + 20 },
              channel := none,
              channel_id := some (stripNull (p.take 128)) }
          { s with pos := s.pos + 16 } := by
  have htg : tg.length = 4 := by
    rcases h34 with h | h <;> subst h <;> rfl
  have hne0 : ¬(tg = RAW0) := by
    rcases h34 with h | h <;> subst h <;> decide
  have hS' : s.data.drop s.pos
      = le4 n ++ (tg ++ (ts ++ (p ++ (le4 n ++ rest)))) := by
    simpa [mkFrame, List.append_assoc] using hS
  have ehdr := read_dgram_header_eval hS' htg hts hn
  have d16 : s.data.drop (s.pos + 16) = p ++ (le4 n ++ rest) := by
    have hS16 : s.data.drop s.pos
        = (le4 n ++ (tg ++ ts)) ++ (p ++ (le4 n ++ rest)) := by
      simpa [List.append_assoc] using hS'
    have := drop_add (k := 16) hS16 (by simp [le4, htg, hts])
    simpa using this
  have hsplit : p.take 128 ++ (p.drop 128 ++ (le4 n ++ rest))
      = p ++ (le4 n ++ rest) := by
    rw [← List.append_assoc, List.take_append_drop]
  have hlen128 : (p.take 128).length = 128 := by
    rw [List.length_take]
    omega
  have e2 : readBytes 128 { s with pos := s.pos + 16 }
      = (p.take 128, { s with pos := s.pos + 16 + 128 }) := by
    exact @readBytes_eval _ (p.take 128) (p.drop 128 ++ (le4 n ++ rest)) 128
      (by simpa using d16.trans hsplit.symm) hlen128
  simp only [peek, ehdr]
  try simp only []
  rw [if_neg hne0]
  rw [if_pos h34]
  simp only [e2]
  rw [if_neg (show ¬((p.take 128).length ≠ 128) from not_ne_iff.mpr hlen128)]
  rw [if_neg Bool.false_ne_true]
  unfold seekCur
  rw [if_neg (show ¬(((s.pos + 16 + 128 : Nat) : Int) + (-128) < 0) by omega)]
  try simp only []
  have htn : (((s.pos + 16 + 128 : Nat) : Int) + (-128)).toNat
      = s.pos + 16 := by
    omega
  rw [htn]

/-- `peek(rewind=False)` on a well-formed frame of any type outside the
ping set: reads the header only (no lookahead) and leaves the cursor at the
start of the payload (frame start plus 16). -/
lemma peek_false_other {s : FileState} {n : Nat} {tg ts p rest : List Nat}
    (htg : tg.length = 4) (h0 : tg ≠ RAW0) (h3 : tg ≠ RAW3) (h4 : tg ≠ RAW4)
    (hS : s.data.drop s.pos = mkFrame n tg ts p ++ rest)
    (hts : ts.length = 8) (hn : n < 2147483648) :
    peek false s
      = .ok { hdr := { size := (n : Int), dtype := tg,
                       low_date := leUInt32 (ts.take 4),
                       high_date := leUInt32 ((ts.drop 4).take 4),
                       raw_bytes := tg ++ ts, bytes_read := (n : Int) + 20 },
              channel := none, channel_id := none }
          { s with pos := s.pos + 16 } := by
  have hS' : s.data.drop s.pos
      = le4 n ++ (tg ++ (ts ++ (p ++ (le4 n ++ rest)))) := by
    simpa [mkFrame, List.append_assoc] using hS
  have ehdr := read_dgram_header_eval hS' htg hts hn
  simp only [peek, ehdr]
  try simp only []
  rw [if_neg h0]
  rw [if_neg (show ¬(tg = RAW3 ∨ tg = RAW4) from fun hc => hc.elim h3 h4)]
  rw [if_neg Bool.false_ne_true]

/-- `skip` over one well-formed frame: seeks past the payload, checks the
trailing size, and increments the logical index, landing `n + 8` bytes
ahead. -/
lemma skip_wf {fuel : Nat} {s : FileState} {n : Nat} {tag ts p rest : List Nat}
    (hS : s.data.drop s.pos = mkFrame n tag ts p ++ rest)
    (htag : tag.length = 4) (hts : ts.length = 8) (hpl : p.length = n - 12)
    (h16 : 16 ≤ n) (hn : n < 2147483648) :
    skip fuel none s
      = .ok ()
          { s with pos := s.pos + (n + 8), dgramIndex := s.dgramIndex + 1 } := by
  have hS' : s.data.drop s.pos
      = le4 n ++ (tag ++ (ts ++ (p ++ (le4 n ++ rest)))) := by
    simpa [mkFrame, List.append_assoc] using hS
  have ehdr := read_dgram_header_eval hS' htag hts hn
  have h16' : ¬((n : Int) < 16) := by exact_mod_cast not_lt.mpr h16
  have d20 : s.data.drop (s.pos + (n + 4)) = le4 n ++ rest := by
    have hS20 : s.data.drop s.pos
        = (le4 n ++ (tag ++ (ts ++ p))) ++ (le4 n ++ rest) := by
      simpa [List.append_assoc] using hS'
    have hblen : (le4 n ++ (tag ++ (ts ++ p))).length = n + 4 := by
      simp [le4, htag, hts, hpl]
      omega
    exact drop_add hS20 hblen
  have etr : read_dgram_size { s with pos := s.pos + (n + 4) }
      = .ok (n : Int) { s with pos := s.pos + (n + 4) + 4 } :=
    read_dgram_size_eval (by simpa using d20) hn
  simp only [skip, ehdr]
  try simp only []
  rw [if_neg h16']
  unfold seekCur
  rw [if_neg (show ¬(((s.pos + 16 : Nat) : Int) + ((n : Int) - 12) < 0) by omega)]
  try simp only []
  have htn : (((s.pos + 16 : Nat) : Int) + ((n : Int) - 12)).toNat
      = s.pos + (n + 4) := by
    omega
  rw [htn]
  simp only [etr]
  rw [if_neg (show ¬((n : Int) ≠ (n : Int)) from fun hc => hc rfl)]
  have harith : s.pos + (n + 4) + 4 = s.pos + (n + 8) := by omega
  rw [harith]

/-- `skip` on a structurally invalid header (declared size below 16):
resynchronizes to the next recognizable tag and returns with the index
incremented, without retrying the skip — the cursor is left at the start of
the found frame, which has not been consumed. -/
lemma skip_resync {fuel : Nat} {s : FileState} {m : Nat} {tag1 ts1 B : List Nat}
    {j : Nat}
    (hS : s.data.drop s.pos = le4 m ++ (tag1 ++ (ts1 ++ B)))
    (htag : tag1.length = 4) (hts : ts1.length = 8)
    (hm : m < 16)
    (hfind : findFirstTag B = some j) (hj3 : j + 3 ≤ SEARCH_BUF_BYTES)
    (hj4 : 4 ≤ s.pos + 16 + j) :
    skip (fuel + 1) none s
      = .ok ()
          { s with pos := s.pos + 16 + j - 4, dgramIndex := s.dgramIndex + 1 } := by
  have ehdr := read_dgram_header_eval hS htag hts (by omega)
  have d16 : s.data.drop (s.pos + 16) = B := by
    have hS16 : s.data.drop s.pos = (le4 m ++ (tag1 ++ ts1)) ++ B := by
      simpa [List.append_assoc] using hS
    have hblen : (le4 m ++ (tag1 ++ ts1)).length = 16 := by
      simp [le4, htag, hts]
    exact drop_add hS16 hblen
  have efn : find_next_datagram (fuel + 1) { s with pos := s.pos + 16 }
      = .ok () { s with pos := s.pos + 16 + j - 4 } := by
    have := @find_next_eval fuel { s with pos := s.pos + 16 } B j
      (by simpa using d16) hfind hj3 (by simpa using hj4)
    simpa using this
  simp only [skip, ehdr]
  try simp only []
  rw [if_pos (show ((m : Int) < 16) by exact_mod_cast hm)]
  simp only [efn]


/-- Generic 4-byte size read when the next 4 bytes are known. -/
lemma read_dgram_size_eval_any {s : FileState} {c rest : List Nat}
    (hS : s.data.drop s.pos = c ++ rest) (hc : c.length = 4) :
    read_dgram_size s
      = .ok (toInt32 (leUInt32 c)) { s with pos := s.pos + 4 } := by
  have h1 := readBytes_eval hS hc
  simp [read_dgram_size, h1, hc]

/-- `skip` on a frame whose trailing size field disagrees with the declared
size: seeks past the payload, reads the mismatching trailing size,
resynchronizes to the next recognizable tag and returns with the index
incremented, without retrying the skip — the cursor is left at the start of
the found frame, which has not been consumed. -/
lemma skip_bad_trailing {fuel : Nat} {s : FileState} {n : Nat}
    {tag ts p c B : List Nat} {j : Nat}
    (hS : s.data.drop s.pos = le4 n ++ (tag ++ (ts ++ (p ++ (c ++ B)))))
    (htag : tag.length = 4) (hts : ts.length = 8) (hpl : p.length = n - 12)
    (hc : c.length = 4) (h16 : 16 ≤ n) (hn : n < 2147483648)
    (hbad : toInt32 (leUInt32 c) ≠ (n : Int))
    (hfind : findFirstTag B = some j) (hj3 : j + 3 ≤ SEARCH_BUF_BYTES)
    (hj4 : 4 ≤ s.pos + (n + 8) + j) :
    skip (fuel + 1) none s
      = .ok ()
          { s with pos := s.pos + (n + 8) + j - 4,
                   dgramIndex := s.dgramIndex + 1 } := by
  have ehdr := read_dgram_header_eval hS htag hts hn
  have h16' : ¬((n : Int) < 16) := by exact_mod_cast not_lt.mpr h16
  have d20 : s.data.drop (s.pos + (n + 4)) = c ++ B := by
    have hS20 : s.data.drop s.pos
        = (le4 n ++ (tag ++ (ts ++ p))) ++ (c ++ B) := by
      simpa [List.append_assoc] using hS
    have hblen : (le4 n ++ (tag ++ (ts ++ p))).length = n + 4 := by
      simp [le4, htag, hts, hpl]
      omega
    exact drop_add hS20 hblen
  have etr : read_dgram_size { s with pos := s.pos + (n + 4) }
      = .ok (toInt32 (leUInt32 c)) { s with pos := s.pos + (n + 4) + 4 } :=
    read_dgram_size_eval_any (by simpa using d20) hc
  have dB : s.data.drop (s.pos + (n + 4) + 4) = B := by
    have := drop_add (p := s.pos + (n + 4)) d20 hc
    simpa using this
  have efn : find_next_datagram (fuel + 1) { s with pos := s.pos + (n + 4) + 4 }
      = .ok () { s with pos := s.pos + (n + 4) + 4 + j - 4 } := by
    have := @find_next_eval fuel { s with pos := s.pos + (n + 4) + 4 } B j
      (by simpa using dB) hfind hj3
      (by show 4 ≤ s.pos + (n + 4) + 4 + j; omega)
    simpa using this
  simp only [skip, ehdr]
  try simp only []
  rw [if_neg h16']
  unfold seekCur
  rw [if_neg (show ¬(((s.pos + 16 : Nat) : Int) + ((n : Int) - 12) < 0) by
    omega)]
  try simp only []
  have htn : (((s.pos + 16 : Nat) : Int) + ((n : Int) - 12)).toNat
      = s.pos + (n + 4) := by
    omega
  rw [htn]
  simp only [etr]
  rw [if_pos (show (n : Int) ≠ toInt32 (leUInt32 c) from
    fun hc2 => hbad hc2.symm)]
  simp only [efn]
  have harith : s.pos + (n + 4) + 4 + j - 4 = s.pos + (n + 8) + j - 4 := by
    omega
  rw [harith]

/-- Generic 4-byte size read from any position with 4 bytes available. -/
lemma read_dgram_size_eval_pos {s : FileState}
    (hlen : s.pos + 4 ≤ s.data.length) :
    read_dgram_size s
      = .ok (toInt32 (leUInt32 ((s.data.drop s.pos).take 4)))
          { s with pos := s.pos + 4 } := by
  have h4 : ((s.data.drop s.pos).take 4).length = 4 := by
    rw [List.length_take, List.length_drop]
    omega
  simp [read_dgram_size, readBytes, h4]

/-- The `k > 1` loop returns at most `k` datagrams. -/
lemma read_many_length (fuel : Nat) :
    ∀ (m : Nat) (s : FileState), ((read_many fuel m s).1).length ≤ m := by
  intro m
  induction m with
  | zero => intro s; simp [read_many]
  | succ j ih =>
    intro s
    rw [read_many]
    cases read_next_dgram fuel none s with
    | err e s1 => simp
    | ok d s1 =>
      simp only []
      have := ih s1
      simpa using Nat.succ_le_succ this


lemma runOps_index (fuel : Nat) :
    ∀ (ops : List FwdOp) (s s' : FileState),
      runOps fuel ops s = some s' →
      s'.dgramIndex = s.dgramIndex + ops.length := by
  intro ops
  induction ops with
  | nil =>
    intro s s' h
    simp only [runOps, Option.some.injEq] at h
    rw [← h]
    simp
  | cons op rest ih =>
    intro s s' h
    cases op with
    | rnext =>
      rw [runOps] at h
      cases hq : read_next_dgram fuel none s with
      | err e s1 => rw [hq] at h; simp at h
      | ok d s1 =>
        rw [hq] at h
        try simp only [] at h
        have h1 := read_next_index fuel hq
        have h2 := ih s1 s' h
        simp only [List.length_cons] at h2 ⊢
        push_cast at h2 ⊢
        omega
    | rskip =>
      rw [runOps] at h
      cases hq : skip fuel none s with
      | err e s1 => rw [hq] at h; simp at h
      | ok u s1 =>
        rw [hq] at h
        try simp only [] at h
        cases u
        have h1 := skip_index hq
        have h2 := ih s1 s' h
        simp only [List.length_cons] at h2 ⊢
        push_cast at h2 ⊢
        omega


/-- A frame whose trailing size field disagrees with its declared size:
`_read_next_dgram` reads the header, the payload and the mismatching
trailing field, resynchronizes to the first recognizable tag of the
following bytes `B`, and retries the whole read from the landing
position. -/
lemma read_next_bad_trailing {fuel : Nat} {s : FileState} {n : Nat}
    {tag ts p c B : List Nat} {j : Nat}
    (hS : s.data.drop s.pos = le4 n ++ (tag ++ (ts ++ (p ++ (c ++ B)))))
    (htag : tag.length = 4) (hts : ts.length = 8) (hpl : p.length = n - 12)
    (hclen : c.length = 4)
    (h16 : 16 ≤ n) (hn : n < 2147483648)
    (hbad : toInt32 (leUInt32 c) ≠ (n : Int))
    (hfind : findFirstTag B = some j) (hj3 : j + 3 ≤ SEARCH_BUF_BYTES)
    (hj4 : 4 ≤ s.pos + (n + 8) + j) :
    read_next_dgram (fuel + 2) none s
      = read_next_dgram (fuel + 1) none
          { s with pos := s.pos + (n + 8) + j - 4 } := by
  have ehdr := read_dgram_header_eval hS htag hts hn
  have d16 : s.data.drop (s.pos + 16) = p ++ (c ++ B) := by
    have hS16 : s.data.drop s.pos = (le4 n ++ (tag ++ ts)) ++ (p ++ (c ++ B)) := by
      simpa [List.append_assoc] using hS
    have := drop_add (k := 16) hS16 (by simp [le4, htag, hts])
    simpa using this
  have epay : readBytes (n - 12) { s with pos := s.pos + 16 }
      = (p, { s with pos := s.pos + 16 + (n - 12) }) :=
    readBytes_eval (by simpa using d16) hpl
  have d20 : s.data.drop (s.pos + 16 + (n - 12)) = c ++ B := by
    have := drop_add (p := s.pos + 16) d16 hpl
    simpa using this
  have etr : read_dgram_size { s with pos := s.pos + 16 + (n - 12) }
      = .ok (toInt32 (leUInt32 c)) { s with pos := s.pos + 16 + (n - 12) + 4 } :=
    read_dgram_size_eval_any (by simpa using d20) hclen
  have dB : s.data.drop (s.pos + 16 + (n - 12) + 4) = B := by
    have := drop_add (p := s.pos + 16 + (n - 12)) d20 hclen
    simpa using this
  have harith : s.pos + 16 + (n - 12) + 4 = s.pos + (n + 8) := by omega
  have efn : find_next_datagram (fuel + 1)
        { s with pos := s.pos + 16 + (n - 12) + 4 }
      = .ok () { s with pos := s.pos + (n + 8) + j - 4 } := by
    have := @find_next_eval fuel { s with pos := s.pos + 16 + (n - 12) + 4 } B j
      (by simpa using dB) hfind hj3 (by simp only []; omega)
    rw [this]
    simp only []
    rw [harith]
  have h16' : ¬((n : Int) < 16) := by exact_mod_cast not_lt.mpr h16
  have ctn : ((n : Int) - 12).toNat = n - 12 := by omega
  have hlenN : (tag ++ ts ++ p).length = n := by
    simp [htag, hts, hpl]
    omega
  show read_next_dgram (fuel + 1 + 1) none s = _
  simp only [read_next_dgram, ehdr]
  simp only [ctn, epay, etr]
  rw [if_neg h16']
  rw [if_neg (show ¬(((tag ++ ts ++ p).length : Int) < (n : Int)) by
    rw [hlenN]; exact lt_irrefl _)]
  rw [if_pos (show (n : Int) ≠ toInt32 (leUInt32 c) from Ne.symm hbad)]
  rw [efn]


/-! ## Claims -/

/-- **C9.** Timestamp conversion computes microseconds past the
1601-01-01T00:00:00 UTC epoch as `((high << 32) + low) / 10` with exact
integer arithmetic: the pair `(0, 0)` maps to the epoch instant exactly
(0 microseconds), and 10,000,000 ticks map to exactly one second
(1,000,000 microseconds), both as raw values and through `get_header` on a
stream carrying those timestamp bytes. -/
theorem claim_C9_timestamp :
    us_past_nt_epoch 0 0 = 0
    ∧ us_past_nt_epoch 10000000 0 = 1000000
    ∧ (∃ i s', get_header (initState (le4 16 ++ nme0bytes ++ zeros8))
        = .ok i s' ∧ i.timestamp_us = 0)
    ∧ (∃ i s', get_header (initState (le4 16 ++ nme0bytes
          ++ (le4 10000000 ++ le4 0)))
        = .ok i s' ∧ i.timestamp_us = 1000000) := by
  refine ⟨rfl, rfl, ⟨_, _, rfl, rfl⟩, ⟨_, _, rfl, rfl⟩⟩



/-- **C3 (counterexample).** For the 24-byte frame `c3data` whose payload
has 4 bytes, the returned record has `size = 4` but `bytes_read = 36`, not
`size + 20 = 24`: the claim that `bytes_read` equals the payload length
plus 20 (the full on-disk frame length) fails, because the code computes
`declared_size + 20` and the declared size already counts the 12-byte
header. -/
theorem claim_C3_cex :
    read_next_dgram 1 none (initState c3data)
      = .ok (.nice c3rec)
          { data := c3data, pos := 24, dgramIndex := 1, return_raw := false }
    ∧ c3rec.size = 4
    ∧ ¬(c3rec.bytes_read = (c3rec.size : Int) + 20) := by
  exact ⟨by decide, by decide, by decide⟩

/-- **C3 (amended).** For every well-formed frame, `read_next` returns the
record built from the frame bytes: its `size` equals the payload length,
and its `bytes_read` equals `declared_size + 20 = size + 32` — twelve more
than the full on-disk frame length, because the declared size already
includes the 12-byte type/timestamp header. -/
theorem claim_C3_amended {fuel : Nat} {s : FileState} {n : Nat}
    {tag ts p rest : List Nat}
    (hS : s.data.drop s.pos = mkFrame n tag ts p ++ rest)
    (htag : tag.length = 4) (hts : ts.length = 8) (hpl : p.length = n - 12)
    (h16 : 16 ≤ n) (hn : n < 2147483648) (hraw : s.return_raw = false) :
    read_next_dgram (fuel + 1) none s
      = .ok (.nice (convert_raw_datagram ((tag ++ ts) ++ p) ((n : Int) + 20)))
          { s with pos := s.pos + (n + 8), dgramIndex := s.dgramIndex + 1 }
    ∧ (convert_raw_datagram ((tag ++ ts) ++ p) ((n : Int) + 20)).size = p.length
    ∧ (convert_raw_datagram ((tag ++ ts) ++ p) ((n : Int) + 20)).bytes_read
        = ((convert_raw_datagram ((tag ++ ts) ++ p) ((n : Int) + 20)).size : Int)
            + 32 := by
  refine ⟨read_next_wf hS htag hts hpl h16 hn hraw, ?_, ?_⟩
  · simp [convert_raw_datagram, htag, hts]
    omega
  · simp [convert_raw_datagram, htag, hts, hpl]
    omega

/-- Witness for C3 (amended) at the concrete frame `c3data`. -/
theorem claim_C3_amended_witness :
    read_next_dgram 1 none (initState c3data)
      = .ok (.nice (convert_raw_datagram ((nme0bytes ++ zeros8) ++ [1, 2, 3, 4])
          ((16 : Int) + 20)))
        { data := c3data, pos := 0 + (16 + 8), dgramIndex := 0 + 1,
          return_raw := false }
    ∧ (convert_raw_datagram ((nme0bytes ++ zeros8) ++ [1, 2, 3, 4])
        ((16 : Int) + 20)).size = [1, 2, 3, 4].length
    ∧ (convert_raw_datagram ((nme0bytes ++ zeros8) ++ [1, 2, 3, 4])
        ((16 : Int) + 20)).bytes_read
        = ((convert_raw_datagram ((nme0bytes ++ zeros8) ++ [1, 2, 3, 4])
            ((16 : Int) + 20)).size : Int) + 32 :=
  claim_C3_amended rfl rfl rfl rfl (by decide) (by decide) rfl



/-- **C4 (counterexample).** On `c4data`, `skip` hits the invalid declared
size, resynchronizes, and returns with the byte cursor at offset 16 — the
START of the recognizable frame, which has not been consumed — and the
logical index incremented.  Had `skip` retried the skip after
resynchronizing, as the claim states, the cursor would be at offset 40
(the end of the 40-byte stream). -/
theorem claim_C4_cex :
    skip 1 none (initState c4data)
      = .ok () { data := c4data, pos := 16, dgramIndex := 1,
                 return_raw := false }
    ∧ c4data.length = 40
    ∧ (16 : Nat) ≠ 40 := by
  exact ⟨by decide, by decide, by decide⟩

/-- **C4 (amended).** `skip` on a well-formed frame seeks past the payload
and trailing size and increments the index once; on an envelope whose
declared size is below 16, and likewise on a frame whose trailing size
disagrees with the declared size, it resynchronizes forward to the next
recognizable tag and returns WITHOUT retrying — the logical index is still
incremented exactly once, and the cursor is left at the start of the found
frame. -/
theorem claim_C4_amended :
    (∀ (fuel : Nat) (s : FileState) (n : Nat) (tag ts p rest : List Nat),
      s.data.drop s.pos = mkFrame n tag ts p ++ rest →
      tag.length = 4 → ts.length = 8 → p.length = n - 12 →
      16 ≤ n → n < 2147483648 →
      skip fuel none s
        = .ok ()
            { s with pos := s.pos + (n + 8), dgramIndex := s.dgramIndex + 1 })
    ∧ (∀ (fuel : Nat) (s : FileState) (m : Nat) (tag1 ts1 B : List Nat) (j : Nat),
      s.data.drop s.pos = le4 m ++ (tag1 ++ (ts1 ++ B)) →
      tag1.length = 4 → ts1.length = 8 → m < 16 →
      findFirstTag B = some j → j + 3 ≤ SEARCH_BUF_BYTES → 4 ≤ s.pos + 16 + j →
      skip (fuel + 1) none s
        = .ok ()
            { s with pos := s.pos + 16 + j - 4, dgramIndex := s.dgramIndex + 1 })
    ∧ (∀ (fuel : Nat) (s : FileState) (n : Nat) (tag ts p c B : List Nat)
        (j : Nat),
      s.data.drop s.pos = le4 n ++ (tag ++ (ts ++ (p ++ (c ++ B)))) →
      tag.length = 4 → ts.length = 8 → p.length = n - 12 → c.length = 4 →
      16 ≤ n → n < 2147483648 →
      toInt32 (leUInt32 c) ≠ (n : Int) →
      findFirstTag B = some j → j + 3 ≤ SEARCH_BUF_BYTES →
      4 ≤ s.pos + (n + 8) + j →
      skip (fuel + 1) none s
        = .ok ()
            { s with pos := s.pos + (n + 8) + j - 4,
                     dgramIndex := s.dgramIndex + 1 }) :=
  ⟨fun _ _ _ _ _ _ _ hS htag hts hpl h16 hn =>
    skip_wf hS htag hts hpl h16 hn,
   fun _ _ _ _ _ _ _ hS htag hts hm hfind hj3 hj4 =>
    skip_resync hS htag hts hm hfind hj3 hj4,
   fun _ _ _ _ _ _ _ _ _ hS htag hts hpl hc h16 hn hbad hfind hj3 hj4 =>
    skip_bad_trailing hS htag hts hpl hc h16 hn hbad hfind hj3 hj4⟩

/-- Witness for C4 (amended): all three conjuncts at concrete streams — a
well-formed frame, an envelope with declared size 0, and a frame whose
trailing size 99 disagrees with its declared size 16. -/
theorem claim_C4_amended_witness :
    skip 1 none (initState sampleFrame)
      = .ok ()
          { data := sampleFrame, pos := 0 + (16 + 8), dgramIndex := 0 + 1,
            return_raw := false }
    ∧ skip 1 none (initState c4data)
      = .ok ()
          { data := c4data, pos := 0 + 16 + 4 - 4, dgramIndex := 0 + 1,
            return_raw := false }
    ∧ skip 1 none (initState c4bad)
      = .ok ()
          { data := c4bad, pos := 0 + (16 + 8) + 4 - 4, dgramIndex := 0 + 1,
            return_raw := false } :=
  ⟨claim_C4_amended.1 1 (initState sampleFrame) 16 nme0bytes zeros8
      [5, 6, 7, 8] [] rfl rfl rfl rfl (by decide) (by decide),
   claim_C4_amended.2.1 0 (initState c4data) 0 [0, 0, 0, 0] zeros8 sampleFrame 4
      rfl rfl rfl (by decide) (by decide) (by decide) (by decide),
   claim_C4_amended.2.2 0 (initState c4bad) 16 nme0bytes zeros8 [1, 2, 3, 4]
      (le4 99) sampleFrame 4 rfl rfl rfl rfl rfl (by decide) (by decide)
      (by decide) (by decide) (by decide) (by decide)⟩


/-- **C5.** When the header and the full payload are read successfully but
fewer than 4 bytes remain for the trailing size field, `read_next`
restores the byte cursor to the rollback point captured on entry (the
frame start), propagates the read error, and leaves the logical index
unchanged: the resulting state is exactly the entry state. -/
theorem claim_C5_trailing_short (fuel : Nat) (s : FileState) (n : Nat)
    (tag ts p rest : List Nat)
    (hS : s.data.drop s.pos = le4 n ++ (tag ++ (ts ++ (p ++ rest))))
    (htag : tag.length = 4) (hts : ts.length = 8) (hpl : p.length = n - 12)
    (h16 : 16 ≤ n) (hn : n < 2147483648)
    (hshort : rest.length < 4) :
    read_next_dgram (fuel + 1) none s = .err .readError s := by
  have ehdr := read_dgram_header_eval hS htag hts hn
  have d16 : s.data.drop (s.pos + 16) = p ++ rest := by
    have hS16 : s.data.drop s.pos = (le4 n ++ (tag ++ ts)) ++ (p ++ rest) := by
      simpa [List.append_assoc] using hS
    have := drop_add (k := 16) hS16 (by simp [le4, htag, hts])
    simpa using this
  have epay : readBytes (n - 12) { s with pos := s.pos + 16 }
      = (p, { s with pos := s.pos + 16 + (n - 12) }) :=
    readBytes_eval (by simpa using d16) hpl
  have d20 : s.data.drop (s.pos + 16 + (n - 12)) = rest := by
    have := drop_add (p := s.pos + 16) d16 hpl
    simpa using this
  have etr : read_dgram_size { s with pos := s.pos + 16 + (n - 12) }
      = .err .readError { s with pos := s.pos + 16 + (n - 12) } :=
    read_dgram_size_short (by simpa using d20) hshort
  have h16' : ¬((n : Int) < 16) := by exact_mod_cast not_lt.mpr h16
  have ctn : ((n : Int) - 12).toNat = n - 12 := by omega
  have hlenN : (tag ++ ts ++ p).length = n := by
    simp [htag, hts, hpl]
    omega
  simp only [read_next_dgram, ehdr]
  simp only [ctn, epay, etr]
  rw [if_neg h16']
  rw [if_neg (show ¬(((tag ++ ts ++ p).length : Int) < (n : Int)) by
    rw [hlenN]; exact lt_irrefl _)]
  try simp only []
  unfold seekSet
  rw [if_neg (show ¬((s.pos : Int) < 0) by omega)]
  try simp only []
  have htn : ((s.pos : Nat) : Int).toNat = s.pos := by omega
  rw [htn]


/-- Witness for C5 at the concrete truncated stream `c5data`. -/
theorem claim_C5_trailing_short_witness :
    read_next_dgram 1 none (initState c5data) = .err .readError (initState c5data) :=
  claim_C5_trailing_short 0 (initState c5data) 16 nme0bytes zeros8 [1, 2, 3, 4]
    [9, 9] (by decide) rfl rfl rfl (by decide) (by decide) (by decide)


/-- **C6.** `skip_back` from byte position `p`: reads the 4 bytes at
`p - 4` as a trailing size `t` and computes the candidate frame start
`p - 8 - t`; if the leading size read there equals `t` it leaves the
cursor at the candidate start and decrements the logical index; if the two
values disagree it restores the cursor to `p`, leaves the index unchanged
(the resulting state is exactly the entry state), and fails with an
error. -/
theorem claim_C6_skip_back (s : FileState) (t : Int) (c : Nat)
    (h4 : 4 ≤ s.pos) (hlen : s.pos ≤ s.data.length)
    (ht : t = toInt32 (leUInt32 ((s.data.drop (s.pos - 4)).take 4)))
    (htnn : 0 ≤ t) (hc : (c : Int) = (s.pos : Int) - 8 - t) :
    (t = toInt32 (leUInt32 ((s.data.drop c).take 4)) →
      skip_back s = .ok () { s with pos := c, dgramIndex := s.dgramIndex - 1 })
    ∧ (t ≠ toInt32 (leUInt32 ((s.data.drop c).take 4)) →
      skip_back s = .err .sizeError s) := by
  have hs1 : seekCur (-4 : Int) s
      = .ok () { s with pos := s.pos - 4 } := by
    unfold seekCur
    rw [if_neg (show ¬((s.pos : Int) + (-4) < 0) by omega)]
    have : ((s.pos : Int) + (-4)).toNat = s.pos - 4 := by omega
    rw [this]
  have hrd1 : read_dgram_size { s with pos := s.pos - 4 }
      = .ok t { s with pos := s.pos - 4 + 4 } := by
    rw [ht]
    exact read_dgram_size_eval_pos (by simp only []; omega)
  have hp44 : s.pos - 4 + 4 = s.pos := by omega
  have hs2 : seekCur (-(8 + t)) { s with pos := s.pos }
      = .ok () { s with pos := c } := by
    unfold seekCur
    rw [if_neg (show ¬((s.pos : Int) + -(8 + t) < 0) by omega)]
    have : ((s.pos : Int) + -(8 + t)).toNat = c := by omega
    rw [this]
  have hrd2 : read_dgram_size { s with pos := c }
      = .ok (toInt32 (leUInt32 ((s.data.drop c).take 4)))
          { s with pos := c + 4 } := by
    exact read_dgram_size_eval_pos (by simp only []; omega)
  constructor
  · intro hmatch
    unfold skip_back
    rw [hs1]
    try simp only []
    rw [hrd1, hp44]
    try simp only []
    rw [hs2]
    try simp only []
    rw [hrd2]
    try simp only []
    rw [if_neg (show ¬(t ≠ toInt32 (leUInt32 ((s.data.drop c).take 4)))
      from not_ne_iff.mpr hmatch)]
    unfold seekCur
    rw [if_neg (show ¬(((c + 4 : Nat) : Int) + (-4) < 0) by omega)]
    have : (((c + 4 : Nat) : Int) + (-4)).toNat = c := by omega
    rw [this]
  · intro hmm
    unfold skip_back
    rw [hs1]
    try simp only []
    rw [hrd1, hp44]
    try simp only []
    rw [hs2]
    try simp only []
    rw [hrd2]
    try simp only []
    rw [if_pos hmm]
    unfold seekSet
    rw [if_neg (show ¬((s.pos : Int) < 0) by omega)]
    have : ((s.pos : Nat) : Int).toNat = s.pos := by omega
    rw [this]


/-- Witness for C6: a successful reverse step over `sampleFrame` from its
end (cursor to the frame start, index decremented), and a failing one over
`c6bad` (cursor restored, index unchanged). -/
theorem claim_C6_skip_back_witness :
    skip_back { data := sampleFrame, pos := 24, dgramIndex := 1,
                return_raw := false }
      = .ok () { data := sampleFrame, pos := 0, dgramIndex := 0,
                 return_raw := false }
    ∧ skip_back { data := c6bad, pos := 25, dgramIndex := 1,
                  return_raw := false }
      = .err .sizeError { data := c6bad, pos := 25, dgramIndex := 1,
                          return_raw := false } :=
  ⟨(claim_C6_skip_back
      { data := sampleFrame, pos := 24, dgramIndex := 1, return_raw := false }
      16 0 (by decide) (by decide) (by decide) (by decide) (by decide)).1
      (by decide),
   (claim_C6_skip_back
      { data := c6bad, pos := 25, dgramIndex := 1, return_raw := false }
      16 1 (by decide) (by decide) (by decide) (by decide) (by decide)).2
      (by decide)⟩


/-- **C7.** `peek` is non-consuming with respect to the logical position in
either rewind mode — no path through it changes the datagram index — and
`peek(rewind=true)` is idempotent: a successful call restores the state
exactly (same bytes, byte offset, index, and mode), so any number of
repeated calls return identical header contents and leave the byte offset
unchanged. -/
theorem claim_C7_peek_idempotent :
    (∀ (b : Bool) (s : FileState),
      ((peek b s).finalState).dgramIndex = s.dgramIndex)
    ∧ (∀ (s : FileState) (pr : PeekResult) (s' : FileState),
      peek true s = .ok pr s' → s' = s ∧ peek true s' = .ok pr s') :=
  ⟨peek_index,
   fun s pr s' hp => by
    have hss := peek_true_state hp
    refine ⟨hss, ?_⟩
    rw [hss] at hp ⊢
    exact hp⟩


/-- Witness for C7 at the concrete frame `sampleFrame`. -/
theorem claim_C7_peek_idempotent_witness :
    initState sampleFrame = initState sampleFrame
    ∧ peek true (initState sampleFrame) = .ok c7pr (initState sampleFrame) :=
  claim_C7_peek_idempotent.2 (initState sampleFrame) c7pr
    (initState sampleFrame) (by decide)




/-- **C8 (counterexample).** On the `RAW0` frame `raw0frame`,
`peek(rewind=false)` reads the 2-byte channel lookahead and then REWINDS
it: the cursor is left at byte 16 (the start of the payload, of which the
lookahead bytes are the first two), not at byte 18 as the claim's "after
any lookahead fields that were read" requires. -/
theorem claim_C8_cex :
    peek false (initState raw0frame)
      = .ok c8pr { data := raw0frame, pos := 16, dgramIndex := 0,
                   return_raw := false }
    ∧ (16 : Nat) ≠ 18 := by
  exact ⟨by decide, by decide⟩

/-- **C8 (amended).** `peek(rewind=false)` on every well-formed frame —
`RAW0` with its 2-byte channel lookahead, `RAW3`/`RAW4` with their 128-byte
channel-identifier lookahead, and every other type with no lookahead —
returns the header (with the lookahead value where one is read), leaves
the byte cursor at the start of the payload proper (16 bytes past the
frame start; for the ping variants the lookahead bytes are rewound since
they are the first payload bytes), does not change the logical index, and
an immediately following `read_next` that is passed the returned header
consumes the frame correctly: it returns the frame's record, advances the
cursor to the end of the frame, and increments the index once. -/
theorem claim_C8_amended :
    (∀ (fuel : Nat) (s : FileState) (n : Nat) (ts p rest : List Nat),
      s.data.drop s.pos = mkFrame n RAW0 ts p ++ rest →
      ts.length = 8 → p.length = n - 12 → 16 ≤ n → n < 2147483648 →
      s.return_raw = false →
      ∃ pr s1,
        peek false s = .ok pr s1
        ∧ s1.pos = s.pos + 16
        ∧ s1.dgramIndex = s.dgramIndex
        ∧ pr.channel = some (toInt16 (leUInt16 (p.take 2)))
        ∧ read_next_dgram (fuel + 1) (some pr.hdr) s1
            = .ok (.nice (convert_raw_datagram ((RAW0 ++ ts) ++ p)
                ((n : Int) + 20)))
                { s with pos := s.pos + (n + 8),
                         dgramIndex := s.dgramIndex + 1 })
    ∧ (∀ (fuel : Nat) (s : FileState) (n : Nat) (tg ts p rest : List Nat),
      tg = RAW3 ∨ tg = RAW4 →
      s.data.drop s.pos = mkFrame n tg ts p ++ rest →
      ts.length = 8 → p.length = n - 12 → 128 ≤ p.length →
      16 ≤ n → n < 2147483648 → s.return_raw = false →
      ∃ pr s1,
        peek false s = .ok pr s1
        ∧ s1.pos = s.pos + 16
        ∧ s1.dgramIndex = s.dgramIndex
        ∧ pr.channel_id = some (stripNull (p.take 128))
        ∧ read_next_dgram (fuel + 1) (some pr.hdr) s1
            = .ok (.nice (convert_raw_datagram ((tg ++ ts) ++ p)
                ((n : Int) + 20)))
                { s with pos := s.pos + (n + 8),
                         dgramIndex := s.dgramIndex + 1 })
    ∧ (∀ (fuel : Nat) (s : FileState) (n : Nat) (tg ts p rest : List Nat),
      tg.length = 4 → tg ≠ RAW0 → tg ≠ RAW3 → tg ≠ RAW4 →
      s.data.drop s.pos = mkFrame n tg ts p ++ rest →
      ts.length = 8 → p.length = n - 12 → 16 ≤ n → n < 2147483648 →
      s.return_raw = false →
      ∃ pr s1,
        peek false s = .ok pr s1
        ∧ s1.pos = s.pos + 16
        ∧ s1.dgramIndex = s.dgramIndex
        ∧ pr.channel = none
        ∧ pr.channel_id = none
        ∧ read_next_dgram (fuel + 1) (some pr.hdr) s1
            = .ok (.nice (convert_raw_datagram ((tg ++ ts) ++ p)
                ((n : Int) + 20)))
                { s with pos := s.pos + (n + 8),
                         dgramIndex := s.dgramIndex + 1 }) := by
  refine ⟨?_, ?_, ?_⟩
  · intro fuel s n ts p rest hS hts hpl h16 hn hraw
    have hpk := peek_false_raw0 hS hts hpl h16 hn
    refine ⟨_, _, hpk, rfl, rfl, rfl, ?_⟩
    have d16 : s.data.drop (s.pos + 16) = p ++ (le4 n ++ rest) := by
      have hS' : s.data.drop s.pos
          = le4 n ++ (RAW0 ++ (ts ++ (p ++ (le4 n ++ rest)))) := by
        simpa [mkFrame, List.append_assoc] using hS
      have hS16 : s.data.drop s.pos
          = (le4 n ++ (RAW0 ++ ts)) ++ (p ++ (le4 n ++ rest)) := by
        simpa [List.append_assoc] using hS'
      have := drop_add (k := 16) hS16 (by simp [le4, RAW0, hts])
      simpa using this
    have := @read_next_wf_hdr fuel { s with pos := s.pos + 16 } n
      { size := (n : Int), dtype := RAW0, low_date := leUInt32 (ts.take 4),
        high_date := leUInt32 ((ts.drop 4).take 4), raw_bytes := RAW0 ++ ts,
        bytes_read := (n : Int) + 20 }
      p rest
      (by simpa using d16)
      rfl
      (by simp [RAW0, hts])
      hpl h16 hn (by simpa using hraw)
    rw [this]
    try simp only []
    have : s.pos + 16 + (n - 8) = s.pos + (n + 8) := by omega
    rw [this]
  · intro fuel s n tg ts p rest h34 hS hts hpl h128 h16 hn hraw
    have htg : tg.length = 4 := by
      rcases h34 with h | h <;> subst h <;> rfl
    have hpk := peek_false_raw34 h34 hS hts hpl h128 hn
    refine ⟨_, _, hpk, rfl, rfl, rfl, ?_⟩
    have d16 : s.data.drop (s.pos + 16) = p ++ (le4 n ++ rest) := by
      have hS' : s.data.drop s.pos
          = le4 n ++ (tg ++ (ts ++ (p ++ (le4 n ++ rest)))) := by
        simpa [mkFrame, List.append_assoc] using hS
      have hS16 : s.data.drop s.pos
          = (le4 n ++ (tg ++ ts)) ++ (p ++ (le4 n ++ rest)) := by
        simpa [List.append_assoc] using hS'
      have := drop_add (k := 16) hS16 (by simp [le4, htg, hts])
      simpa using this
    have := @read_next_wf_hdr fuel { s with pos := s.pos + 16 } n
      { size := (n : Int), dtype := tg, low_date := leUInt32 (ts.take 4),
        high_date := leUInt32 ((ts.drop 4).take 4), raw_bytes := tg ++ ts,
        bytes_read := (n : Int) + 20 }
      p rest
      (by simpa using d16)
      rfl
      (by simp [htg, hts])
      hpl h16 hn (by simpa using hraw)
    rw [this]
    try simp only []
    have : s.pos + 16 + (n - 8) = s.pos + (n + 8) := by omega
    rw [this]
  · intro fuel s n tg ts p rest htg h0 h3 h4 hS hts hpl h16 hn hraw
    have hpk := peek_false_other htg h0 h3 h4 hS hts hn
    refine ⟨_, _, hpk, rfl, rfl, rfl, rfl, ?_⟩
    have d16 : s.data.drop (s.pos + 16) = p ++ (le4 n ++ rest) := by
      have hS' : s.data.drop s.pos
          = le4 n ++ (tg ++ (ts ++ (p ++ (le4 n ++ rest)))) := by
        simpa [mkFrame, List.append_assoc] using hS
      have hS16 : s.data.drop s.pos
          = (le4 n ++ (tg ++ ts)) ++ (p ++ (le4 n ++ rest)) := by
        simpa [List.append_assoc] using hS'
      have := drop_add (k := 16) hS16 (by simp [le4, htg, hts])
      simpa using this
    have := @read_next_wf_hdr fuel { s with pos := s.pos + 16 } n
      { size := (n : Int), dtype := tg, low_date := leUInt32 (ts.take 4),
        high_date := leUInt32 ((ts.drop 4).take 4), raw_bytes := tg ++ ts,
        bytes_read := (n : Int) + 20 }
      p rest
      (by simpa using d16)
      rfl
      (by simp [htg, hts])
      hpl h16 hn (by simpa using hraw)
    rw [this]
    try simp only []
    have : s.pos + 16 + (n - 8) = s.pos + (n + 8) := by omega
    rw [this]


set_option maxRecDepth 8000 in
/-- Witness for C8 (amended) at concrete frames of all three kinds: the
`RAW0` frame `raw0frame`, the `RAW3` frame `raw3frame`, and the `NME0`
frame `sampleFrame`. -/
theorem claim_C8_amended_witness :
    (∃ pr s1,
      peek false (initState raw0frame) = .ok pr s1
      ∧ s1.pos = (initState raw0frame).pos + 16
      ∧ s1.dgramIndex = (initState raw0frame).dgramIndex
      ∧ pr.channel = some (toInt16 (leUInt16 ([7, 0, 1, 2].take 2)))
      ∧ read_next_dgram 1 (some pr.hdr) s1
          = .ok (.nice (convert_raw_datagram ((RAW0 ++ zeros8) ++ [7, 0, 1, 2])
              ((16 : Int) + 20)))
            { initState raw0frame with
              pos := (initState raw0frame).pos + (16 + 8),
              dgramIndex := (initState raw0frame).dgramIndex + 1 })
    ∧ (∃ pr s1,
      peek false (initState raw3frame) = .ok pr s1
      ∧ s1.pos = (initState raw3frame).pos + 16
      ∧ s1.dgramIndex = (initState raw3frame).dgramIndex
      ∧ pr.channel_id = some (stripNull (raw3payload.take 128))
      ∧ read_next_dgram 1 (some pr.hdr) s1
          = .ok (.nice (convert_raw_datagram ((RAW3 ++ zeros8) ++ raw3payload)
              ((140 : Int) + 20)))
            { initState raw3frame with
              pos := (initState raw3frame).pos + (140 + 8),
              dgramIndex := (initState raw3frame).dgramIndex + 1 })
    ∧ (∃ pr s1,
      peek false (initState sampleFrame) = .ok pr s1
      ∧ s1.pos = (initState sampleFrame).pos + 16
      ∧ s1.dgramIndex = (initState sampleFrame).dgramIndex
      ∧ pr.channel = none
      ∧ pr.channel_id = none
      ∧ read_next_dgram 1 (some pr.hdr) s1
          = .ok (.nice (convert_raw_datagram ((nme0bytes ++ zeros8)
                ++ [5, 6, 7, 8])
              ((16 : Int) + 20)))
            { initState sampleFrame with
              pos := (initState sampleFrame).pos + (16 + 8),
              dgramIndex := (initState sampleFrame).dgramIndex + 1 }) :=
  ⟨claim_C8_amended.1 0 (initState raw0frame) 16 zeros8 [7, 0, 1, 2] []
      rfl rfl rfl (by decide) (by decide) rfl,
   claim_C8_amended.2.1 0 (initState raw3frame) 140 RAW3 zeros8 raw3payload []
      (Or.inl rfl) rfl rfl rfl (by decide) (by decide) (by decide) rfl,
   claim_C8_amended.2.2 0 (initState sampleFrame) 16 nme0bytes zeros8
      [5, 6, 7, 8] [] rfl (by decide) (by decide) (by decide) rfl rfl rfl
      (by decide) (by decide) rfl⟩


/-- **C10.** For every `k > 1`, `read(k)` never propagates an exception: it
always returns a list of at most `k` records; the list is built from
successive `_read_next_dgram` successes and stops at the first failure,
whose error is swallowed (empty list when the first read fails, the
partial list otherwise) — unlike `read(1)`, which re-raises the error
(as `SimradEOF` when the failure left the cursor at end of file). -/
theorem claim_C10_read_swallows :
    (∀ (fuel : Nat) (k : Int) (h? : Option DgramHeader) (s : FileState),
      1 < k → ∃ ds s', read fuel k h? s = .ok (.many ds) s'
        ∧ (ds.length : Int) ≤ k)
    ∧ (∀ (fuel : Nat) (k : Int) (h? : Option DgramHeader) (s : FileState)
        (e : RFError) (s1 : FileState),
      1 < k → read_next_dgram fuel none s = .err e s1 →
      read fuel k h? s = .ok (.many []) s1)
    ∧ (∀ (fuel : Nat) (k : Int) (h? : Option DgramHeader) (s : FileState)
        (d : Dgram) (s1 : FileState),
      1 < k → read_next_dgram fuel none s = .ok d s1 →
      read fuel k h? s
        = .ok (.many (d :: (read_many fuel (k.toNat - 1) s1).1))
            (read_many fuel (k.toNat - 1) s1).2)
    ∧ (∀ (fuel : Nat) (h? : Option DgramHeader) (s : FileState)
        (e : RFError) (s1 : FileState),
      read_next_dgram fuel h? s = .err e s1 →
      read fuel 1 h? s = .err (if at_eof s1 then .eof else e) s1) := by
  refine ⟨?_, ?_, ?_, ?_⟩
  · intro fuel k h? s hk
    rw [read, if_neg (by omega), if_pos (by omega)]
    refine ⟨_, _, rfl, ?_⟩
    have := read_many_length fuel k.toNat s
    omega
  · intro fuel k h? s e s1 hk hq
    rw [read, if_neg (by omega), if_pos (by omega)]
    obtain ⟨m, hm⟩ : ∃ m, k.toNat = m + 1 := ⟨k.toNat - 1, by omega⟩
    rw [hm, read_many, hq]
  · intro fuel k h? s d s1 hk hq
    rw [read, if_neg (by omega), if_pos (by omega)]
    obtain ⟨m, hm⟩ : ∃ m, k.toNat = m + 1 := ⟨k.toNat - 1, by omega⟩
    rw [hm, read_many, hq]
    simp
  · intro fuel h? s e s1 hq
    rw [read, if_pos rfl, read1, hq]
    cases hae : at_eof s1 <;> simp [hae]

/-- Witness for C10: `read(2)` over a stream holding one valid frame
returns that single record and swallows the end-of-stream error. -/
theorem claim_C10_read_swallows_witness :
    ∃ ds s', read 1 2 none (initState sampleFrame) = .ok (.many ds) s'
      ∧ (ds.length : Int) ≤ 2 :=
  claim_C10_read_swallows.1 1 2 none (initState sampleFrame) (by decide)


/-- **C2.** Every successful `read_next` (`_read_next_dgram`) or `skip`
call increments the logical index `tell()` by exactly one, even when
internal resynchronization retries occurred before success; consequently
after `n` successful `read_next`/`skip` calls from logical index 0 the
index equals `n`. -/
theorem claim_C2_index_monotonic :
    (∀ (fuel : Nat) (h? : Option DgramHeader) (s : FileState) (d : Dgram)
        (s' : FileState),
      read_next_dgram fuel h? s = .ok d s' → tell s' = tell s + 1)
    ∧ (∀ (fuel : Nat) (h? : Option DgramHeader) (s s' : FileState),
      skip fuel h? s = .ok () s' → tell s' = tell s + 1)
    ∧ (∀ (fuel : Nat) (ops : List FwdOp) (s s' : FileState),
      tell s = 0 → runOps fuel ops s = some s' →
      tell s' = (ops.length : Int)) :=
  ⟨fun fuel _ _ _ _ h => read_next_index fuel h,
   fun _ _ _ _ h => skip_index h,
   fun fuel ops s s' h0 h => by
    have := runOps_index fuel ops s s' h
    simp only [tell] at h0 ⊢
    omega⟩

/-- Witness for C2: one `read_next` then one `skip` over two consecutive
frames, ending at logical index 2. -/
theorem claim_C2_index_monotonic_witness :
    tell { data := sampleFrame ++ sampleFrame, pos := 48, dgramIndex := 2,
           return_raw := false }
      = (([FwdOp.rnext, FwdOp.rskip].length : Nat) : Int) :=
  claim_C2_index_monotonic.2.2 1 [FwdOp.rnext, FwdOp.rskip]
    (initState (sampleFrame ++ sampleFrame))
    { data := sampleFrame ++ sampleFrame, pos := 48, dgramIndex := 2,
      return_raw := false }
    (by decide) (by decide)


/-- **C1.** For every stream made of one frame whose trailing size field
disagrees with its leading declared size, followed by a well-formed frame
whose type tag is one of the resynchronizer's recognizable patterns (and
whose leading size bytes do not themselves spell a recognizable pattern),
`read(1)` from the start resynchronizes forward and retries, returning
exactly the well-formed frame's record — the decoder applied to that
frame's type/timestamp/payload bytes with `bytes_read = size + 20` — with
the logical index at 1 and the cursor at the end of the stream; the
corrupted frame is silently dropped, and a second `read(1)` raises
`SimradEOF`: two reads yield exactly one record. -/
theorem claim_C1_corruption_recovery
    (fl s1v s2v : Nat) (tag1 ts1 p1 c1 ts2 p2 : List Nat) (t0 t1 t2 t3 : Nat)
    (htag1 : tag1.length = 4) (hts1 : ts1.length = 8)
    (hp1 : p1.length = s1v - 12) (hc1len : c1.length = 4)
    (h16a : 16 ≤ s1v) (hna : s1v < 2147483648)
    (hbad : toInt32 (leUInt32 c1) ≠ (s1v : Int))
    (hts2 : ts2.length = 8) (hp2 : p2.length = s2v - 12)
    (h16b : 16 ≤ s2v) (hnb : s2v < 2147483648)
    (grec : tagSet.contains [t0, t1, t2] = true)
    (g0 : tagSet.contains [s2v % 256, s2v / 256 % 256, s2v / 65536 % 256]
      = false)
    (g1 : tagSet.contains
        [s2v / 256 % 256, s2v / 65536 % 256, s2v / 16777216 % 256] = false)
    (g2 : tagSet.contains [s2v / 65536 % 256, s2v / 16777216 % 256, t0]
      = false)
    (g3 : tagSet.contains [s2v / 16777216 % 256, t0, t1] = false) :
    ∃ sA sB,
      read (fl + 2) 1 none
          (initState (le4 s1v ++ tag1 ++ ts1 ++ p1 ++ c1
            ++ mkFrame s2v [t0, t1, t2, t3] ts2 p2))
        = .ok (.one (.nice (convert_raw_datagram
            (([t0, t1, t2, t3] ++ ts2) ++ p2) ((s2v : Int) + 20)))) sA
      ∧ tell sA = 1
      ∧ sA.pos = (le4 s1v ++ tag1 ++ ts1 ++ p1 ++ c1
            ++ mkFrame s2v [t0, t1, t2, t3] ts2 p2).length
      ∧ read (fl + 2) 1 none sA = .err .eof sB := by
  have hF1len : (le4 s1v ++ tag1 ++ ts1 ++ p1 ++ c1).length = s1v + 8 := by
    simp [le4, htag1, hts1, hp1, hc1len]
    omega
  have hF2len : (mkFrame s2v [t0, t1, t2, t3] ts2 p2).length = s2v + 8 := by
    simp [mkFrame, le4, hts2, hp2]
    omega
  have hffs : findFirstTag (mkFrame s2v [t0, t1, t2, t3] ts2 p2) = some 4 := by
    have hlist : mkFrame s2v [t0, t1, t2, t3] ts2 p2
        = (s2v % 256) :: (s2v / 256 % 256) :: (s2v / 65536 % 256)
          :: (s2v / 16777216 % 256) :: t0 :: t1 :: t2
          :: (t3 :: (ts2 ++ (p2 ++ le4 s2v))) := by
      simp [mkFrame, le4]
    rw [hlist]
    exact @findFirstTag_at4 (s2v % 256) (s2v / 256 % 256) (s2v / 65536 % 256)
      (s2v / 16777216 % 256) t0 t1 t2 (t3 :: (ts2 ++ (p2 ++ le4 s2v)))
      g0 g1 g2 g3 grec
  set D := le4 s1v ++ tag1 ++ ts1 ++ p1 ++ c1
    ++ mkFrame s2v [t0, t1, t2, t3] ts2 p2 with hD
  have hDlen : D.length = s1v + 8 + (s2v + 8) := by
    rw [hD]
    simp only [List.length_append, hF2len]
    have := hF1len
    simp only [List.length_append] at this
    omega
  have hS0 : (initState D).data.drop (initState D).pos
      = le4 s1v ++ (tag1 ++ (ts1 ++ (p1 ++ (c1
          ++ mkFrame s2v [t0, t1, t2, t3] ts2 p2)))) := by
    rw [hD]
    simp [initState, List.append_assoc]
  have step1 := @read_next_bad_trailing fl _ _ _ _ _ _ _ _ hS0 htag1 hts1 hp1
    hc1len h16a hna hbad hffs (by norm_num [SEARCH_BUF_BYTES])
    (by simp only [initState]; omega)
  have hposmid : (initState D).pos + (s1v + 8) + 4 - 4 = s1v + 8 := by
    simp only [initState]
    omega
  rw [hposmid] at step1
  have hdropD : D.drop (s1v + 8) = mkFrame s2v [t0, t1, t2, t3] ts2 p2 := by
    rw [hD]
    rw [show le4 s1v ++ tag1 ++ ts1 ++ p1 ++ c1
          ++ mkFrame s2v [t0, t1, t2, t3] ts2 p2
        = (le4 s1v ++ tag1 ++ ts1 ++ p1 ++ c1)
          ++ mkFrame s2v [t0, t1, t2, t3] ts2 p2 from by
      simp [List.append_assoc]]
    exact List.drop_left' hF1len
  have step2 := @read_next_wf fl { initState D with pos := s1v + 8 }
    s2v [t0, t1, t2, t3] ts2 p2 []
    (by simp only [initState]
        rw [List.append_nil]
        exact hdropD)
    rfl hts2 hp2 h16b hnb rfl
  rw [step2] at step1
  refine ⟨{ data := D, pos := s1v + 8 + (s2v + 8), dgramIndex := 1,
            return_raw := false },
    { data := D, pos := s1v + 8 + (s2v + 8), dgramIndex := 1,
      return_raw := false }, ?_, ?_, ?_, ?_⟩
  · rw [read, if_pos rfl, read1, step1]
    rfl
  · rfl
  · simp only []
    exact hDlen.symm
  · rw [read, if_pos rfl]
    have hpos : ({ data := D, pos := s1v + 8 + (s2v + 8), dgramIndex := 1,
                   return_raw := false } : FileState).pos
        = ({ data := D, pos := s1v + 8 + (s2v + 8), dgramIndex := 1,
             return_raw := false } : FileState).data.length := by
      simp only []
      exact hDlen.symm
    rw [show fl + 2 = fl + 1 + 1 from rfl, read1_eof hpos]


/-- Witness for C1: a concrete stream made of a frame with trailing size 99
(declared 16) followed by a well-formed `NME0` frame. -/
theorem claim_C1_corruption_recovery_witness :
    ∃ sA sB,
      read 2 1 none (initState (le4 16 ++ nme0bytes ++ zeros8 ++ [1, 2, 3, 4]
          ++ le4 99 ++ mkFrame 16 [78, 77, 69, 48] zeros8 [5, 6, 7, 8]))
        = .ok (.one (.nice (convert_raw_datagram
            (([78, 77, 69, 48] ++ zeros8) ++ [5, 6, 7, 8])
            ((16 : Int) + 20)))) sA
      ∧ tell sA = 1
      ∧ sA.pos = (le4 16 ++ nme0bytes ++ zeros8 ++ [1, 2, 3, 4] ++ le4 99
          ++ mkFrame 16 [78, 77, 69, 48] zeros8 [5, 6, 7, 8]).length
      ∧ read 2 1 none sA = .err .eof sB :=
  claim_C1_corruption_recovery 0 16 16 nme0bytes zeros8 [1, 2, 3, 4] (le4 99)
    zeros8 [5, 6, 7, 8] 78 77 69 48 rfl rfl rfl rfl (by decide) (by decide)
    (by decide) rfl rfl (by decide) (by decide) (by decide) (by decide)
    (by decide) (by decide) (by decide)

end Simrad
